import Mathlib

set_option maxRecDepth 8000

/-! Shallow embedding of the vouch-graph risk-analysis pipeline found in
`src/analysis/src` of the repository: the graph model (`graph.py`), the
ring / cluster / burst / stake / reciprocity detectors
(`detectors/*.py`) and the composite scorer (`scorer.py`).

Modelling conventions:
* Python floats are modelled as exact rationals (`ℚ`).
* `datetime` instants are modelled as rational epoch seconds;
  `datetime.fromtimestamp` is the identity on that representation, and
  the library functions `datetime.fromisoformat` and
  `datetime.strftime` (week keys) are abstract parameters, bundled in
  `TimeModel`.
* The wall-clock timeout of the ring search is not modelled: the search
  always runs to completion (`timeout_sec` never expires); the
  `max_rings` result cap is modelled.
* `networkx.DiGraph` is modelled as explicit node / edge / attribute
  lists kept in insertion order, with at most one edge entry per
  ordered pair (the invariant every constructed graph satisfies).
-/

/-- A raw timestamp value as it appears in a JSON record: an integer,
a string, or absent (`None`). -/
inductive TSVal where
  | vInt : Int → TSVal
  | vStr : String → TSVal
  | vNone : TSVal
  deriving DecidableEq

/-- Python truthiness of a `TSVal` (`0`, the empty string and `None`
are falsy). -/
def TSVal.truthy : TSVal → Bool
  | .vInt n => n != 0
  | .vStr s => s != ""
  | .vNone => false

/-- Abstract model of the datetime library pieces the code calls: an
ISO-8601 parser (`datetime.fromisoformat`, a partial function whose
failures the code catches) and the `"%Y-%W"` calendar-week formatter
used by the burst detector. -/
structure TimeModel where
  iso : String → Option ℚ
  weekKey : ℚ → String

/-- Edge attribute record of the vouch graph (`graph.py` lines 64-72). -/
structure EdgeData where
  weight : ℚ
  count : Nat
  staked : Bool
  archived : Bool
  timestamp : Option ℚ
  deriving DecidableEq

/-- Node attribute record (`score` / `username`, `graph.py` 75-83). -/
structure UserData where
  score : ℚ
  username : String
  deriving DecidableEq

/-- Directed graph with insertion-ordered node list, edge list (one
entry per ordered pair) and node-attribute list. -/
structure DiGraph where
  nodes : List Int
  edges : List ((Int × Int) × EdgeData)
  attrs : List (Int × UserData)
  deriving DecidableEq

def DiGraph.successors (G : DiGraph) (u : Int) : List Int :=
  (G.edges.filter (fun e => decide (e.1.1 = u))).map (fun e => e.1.2)

def DiGraph.predecessors (G : DiGraph) (v : Int) : List Int :=
  (G.edges.filter (fun e => decide (e.1.2 = v))).map (fun e => e.1.1)

def DiGraph.edgeData (G : DiGraph) (u v : Int) : Option EdgeData :=
  (G.edges.find? (fun e => decide (e.1 = (u, v)))).map (fun e => e.2)

def DiGraph.hasEdge (G : DiGraph) (u v : Int) : Bool :=
  (G.edgeData u v).isSome

def DiGraph.inDegree (G : DiGraph) (v : Int) : Nat :=
  (G.predecessors v).length

def DiGraph.outDegree (G : DiGraph) (u : Int) : Nat :=
  (G.successors u).length

/-- A graph is well formed when every edge endpoint is registered in
the node list (networkx maintains this automatically). -/
def DiGraph.WF (G : DiGraph) : Prop :=
  ∀ e ∈ G.edges, e.1.1 ∈ G.nodes ∧ e.1.2 ∈ G.nodes

/-! ## Ring detector (`detectors/rings.py`) -/

/-- One pass over the successor loop of `find_rings_around_node`
(rings.py lines 29-35), threading the mutable `visited` set: returns
the rings recorded, the grown visited set and the queue entries
appended, each in loop order. -/
def expandSuccs (start : Int) (maxLen : Nat) (path : List Int) :
    List Int → List Int → List (List Int) × List Int × List (Int × List Int)
  | [], visited => ([], visited, [])
  | s :: ss, visited =>
    if s = start ∧ 3 ≤ path.length then
      let r := expandSuccs start maxLen path ss visited
      (path :: r.1, r.2.1, r.2.2)
    else if s ∉ visited ∧ path.length < maxLen then
      let r := expandSuccs start maxLen path ss (visited ++ [s])
      (r.1, r.2.1, (s, path ++ [s]) :: r.2.2)
    else
      expandSuccs start maxLen path ss visited

/-- The `while queue` loop of `find_rings_around_node`, with FIFO pops
and an explicit fuel (see `find_rings_around_node` for why the fuel
never runs out). -/
def ringBFS (G : DiGraph) (start : Int) (maxLen : Nat) :
    Nat → List (Int × List Int) → List Int → List (List Int) → List (List Int)
  | 0, _, _, rings => rings
  | _ + 1, [], _, rings => rings
  | fuel + 1, (current, path) :: rest, visited, rings =>
    if maxLen < path.length then
      ringBFS G start maxLen fuel rest visited rings
    else
      let r := expandSuccs start maxLen path (G.successors current) visited
      ringBFS G start maxLen fuel (rest ++ r.2.2) r.2.1 (rings ++ r.1)

/-- rings.py `find_rings_around_node`: one BFS per direct successor of
`start`, each seeded with `visited = [start, neighbor]` and queue
`[(neighbor, [start, neighbor])]`; rings found for all neighbors are
appended in order. The fuel `G.edges.length + 2` strictly exceeds the
possible number of loop iterations: every enqueue permanently adds a
previously unvisited node to `visited`, and every enqueued node is the
target of some edge, so at most `G.edges.length` enqueues (hence at
most `1 + G.edges.length` pops) can occur per seed. -/
def find_rings_around_node (G : DiGraph) (start : Int) (maxLen : Nat) :
    List (List Int) :=
  (G.successors start).foldl
    (fun acc nb =>
      acc ++ ringBFS G start maxLen (G.edges.length + 2)
        [(nb, [start, nb])] [start, nb] [])
    []

/-- Stable insert for a descending sort: `x` goes before the first
element whose key is not larger, so ties keep encounter order, matching
Python's stable `sorted(..., reverse=True)`. -/
def insertByKeyDesc (key : Int → Nat) (x : Int) : List Int → List Int
  | [] => [x]
  | y :: ys =>
    if key y ≤ key x then x :: y :: ys else y :: insertByKeyDesc key x ys

/-- rings.py lines 61-65: nodes sorted by total degree, descending. -/
def nodesByDegreeDesc (G : DiGraph) : List Int :=
  G.nodes.foldr (insertByKeyDesc (fun n => G.inDegree n + G.outDegree n)) []

/-- Inner dedup loop of `find_rings` (lines 77-84): keep a ring when
its node set (`frozenset`) is unseen, and stop once `max_rings` rings
are collected. -/
def dedupRings (maxRings : Nat) :
    List (List Int) → List (List Int) → List (Finset Int) →
      List (List Int) × List (Finset Int)
  | [], rings, seen => (rings, seen)
  | r :: rs, rings, seen =>
    if r.toFinset ∈ seen then dedupRings maxRings rs rings seen
    else
      let rings' := rings ++ [r]
      if maxRings ≤ rings'.length then (rings', seen ++ [r.toFinset])
      else dedupRings maxRings rs rings' (seen ++ [r.toFinset])

/-- Outer loop of `find_rings` over origins (the wall-clock timeout
check is not modelled). -/
def findRingsGo (G : DiGraph) (maxLen maxRings : Nat) :
    List Int → List (List Int) → List (Finset Int) → List (List Int)
  | [], rings, _ => rings
  | n :: ns, rings, seen =>
    if maxRings ≤ rings.length then rings
    else
      let p := dedupRings maxRings (find_rings_around_node G n maxLen) rings seen
      findRingsGo G maxLen maxRings ns p.1 p.2

/-- rings.py `find_rings`. -/
def find_rings (G : DiGraph) (maxLen : Nat) (maxRings : Nat) :
    List (List Int) :=
  findRingsGo G maxLen maxRings (nodesByDegreeDesc G) [] []

/-- rings.py `get_rings_for_profile`. -/
def get_rings_for_profile (G : DiGraph) (p : Int) (maxLen : Nat) :
    List (List Int) :=
  (find_rings G maxLen 10000).filter (fun r => decide (p ∈ r))

/-- The consecutive pairs of a ring, wrap-around included: Python's
`(ring[i], ring[(i+1) % len(ring)])` for each index `i`. -/
def ringWrapPairs (ring : List Int) : List (Int × Int) :=
  ring.zip (ring.rotate 1)

/-- rings.py `get_ring_stake`: total weight around the ring's edges
(absent edges contribute nothing). -/
def get_ring_stake (G : DiGraph) (ring : List Int) : ℚ :=
  ((ringWrapPairs ring).map (fun pr =>
    match G.edgeData pr.1 pr.2 with
    | some d => d.weight
    | none => 0)).sum

/-- rings.py `get_ring_time_span`: span between earliest and latest
edge timestamp, `none` when fewer than two timestamps exist. -/
def get_ring_time_span (G : DiGraph) (ring : List Int) : Option ℚ :=
  match (ringWrapPairs ring).filterMap
      (fun pr => (G.edgeData pr.1 pr.2).bind (fun d => d.timestamp)) with
  | [] => none
  | [_] => none
  | t :: rest => some (rest.foldl max t - rest.foldl min t)

/-- Base score by ring size (3 → 40, 4 → 30, 5 → 20, otherwise the
ring is skipped). -/
def ringBaseScore (n : Nat) : Option ℚ :=
  if n = 3 then some 40 else if n = 4 then some 30
  else if n = 5 then some 20 else none

/-- Stake modifier of `calculate_ring_score` (rings.py 167-174): 1.3
below 0.1 canonical units, 0.7 above 1.0, else 1.0. -/
def stakeModifier (stake : ℚ) : ℚ :=
  if stake < 1/10 then 13/10 else if 1 < stake then 7/10 else 1

/-- Temporal modifier of `calculate_ring_score` (rings.py 176-183):
1.3 under 7 days, 0.8 over 90 days, else 1.0. A zero time span is
falsy in Python (`timedelta(0)`), hence the `span ≠ 0` conjuncts. -/
def temporalModifier (span : Option ℚ) : ℚ :=
  match span with
  | some s =>
    if s ≠ 0 ∧ s < 604800 then 13/10
    else if s ≠ 0 ∧ 7776000 < s then 4/5 else 1
  | none => 1

/-- Per-ring contribution inside `calculate_ring_score` (rings.py lines
154-186). -/
def ringContribution (G : DiGraph) (ring : List Int) : ℚ :=
  match ringBaseScore ring.length with
  | none => 0
  | some base =>
    base * stakeModifier (get_ring_stake G ring)
      * temporalModifier (get_ring_time_span G ring)

/-- rings.py `calculate_ring_score`. -/
def calculate_ring_score (G : DiGraph) (p : Int) (maxLen : Nat)
    (precomputed : Option (List (List Int))) : ℚ :=
  let rings :=
    match precomputed with
    | some rs => rs.filter (fun r => decide (p ∈ r))
    | none => get_rings_for_profile G p maxLen
  if rings = [] then 0
  else min 100 ((rings.map (ringContribution G)).sum)

/-- The validity predicate claimed for `find_rings` output: between 3
and `maxLen` pairwise-distinct graph nodes, every consecutive pair
(wrap-around included) being a directed edge. -/
def IsRing (G : DiGraph) (maxLen : Nat) (r : List Int) : Prop :=
  3 ≤ r.length ∧ r.length ≤ maxLen ∧ r.Nodup ∧ (∀ x ∈ r, x ∈ G.nodes) ∧
    ∀ pr ∈ ringWrapPairs r, G.hasEdge pr.1 pr.2 = true

/-! ### Concrete graphs used by the end-to-end claims -/

/-- Edge carrying a mid-range stake (0.2 canonical units) and no
timestamp, so neither ring modifier applies. -/
def midEdge : EdgeData := ⟨1/5, 1, false, false, none⟩

/-- The 3-cycle graph of the end-to-end claim: edges 1→2, 2→3, 3→1. -/
def threeCycle : DiGraph :=
  ⟨[1, 2, 3], [((1, 2), midEdge), ((2, 3), midEdge), ((3, 1), midEdge)], []⟩

theorem find_rings_threeCycle :
    find_rings threeCycle 5 10000 = [[1, 2, 3]] := by decide

/-- Counterexample graph for the per-origin search: rings 1→2→3→1 and
1→2→4→3→1 both pass through origin 1 and first successor 2 and share
node 3. -/
def overlapGraph : DiGraph :=
  ⟨[1, 2, 3, 4],
   [((1, 2), midEdge), ((2, 3), midEdge), ((2, 4), midEdge),
    ((4, 3), midEdge), ((3, 1), midEdge)], []⟩

theorem find_rings_around_node_overlap :
    find_rings_around_node overlapGraph 1 5 = [[1, 2, 3]] := by decide

/-! ## Cluster detector (`detectors/clusters.py`)

The Louvain partition itself is `networkx` library code; every function
below therefore takes the partition (`communities`, the output of
`find_communities` for the run's seed) as an explicit argument. -/

/-- clusters.py `calculate_insularity`: count successor and predecessor
adjacencies of every member inside/outside the community, halve the
internal count (each internal edge is seen from both endpoints), and
divide. The `total = 0` guard returns 0.0 as in the source. -/
def calculate_insularity (G : DiGraph) (community : List Int) : ℚ :=
  let internalRaw := (community.map (fun n =>
      ((G.successors n).filter (fun m => decide (m ∈ community))).length +
      ((G.predecessors n).filter (fun m => decide (m ∈ community))).length)).sum
  let external := (community.map (fun n =>
      ((G.successors n).filter (fun m => decide (m ∉ community))).length +
      ((G.predecessors n).filter (fun m => decide (m ∉ community))).length)).sum
  let internal := internalRaw / 2
  let total := internal + external
  if total = 0 then 0 else (internal : ℚ) / (total : ℚ)

/-- Python dict assignment `d[k] = v`: replace in place when the key
exists, else append. -/
def dictUpsert (m : List (Int × ℚ × Nat)) (k : Int) (v : ℚ × Nat) :
    List (Int × ℚ × Nat) :=
  if m.any (fun e => decide (e.1 = k)) then
    m.map (fun e => if e.1 = k then (k, v) else e)
  else m ++ [(k, v)]

/-- clusters.py `precompute_cluster_data`: map each member of a
flagged (≥ threshold, size ≥ 3) community to its insularity and size. -/
def precompute_cluster_data (G : DiGraph) (communities : List (List Int))
    (threshold : ℚ) : List (Int × ℚ × Nat) :=
  communities.foldl (fun acc c =>
    if c.length < 3 then acc
    else
      let ins := calculate_insularity G c
      if threshold ≤ ins then
        c.foldl (fun m p => dictUpsert m p (ins, c.length)) acc
      else acc) []

/-- Cluster score formula shared by both paths of
`calculate_cluster_score` (clusters.py 128-130 and 141-145). -/
def clusterScoreFromData (ins : ℚ) (size : Nat) : ℚ :=
  let base_score := ins * 100
  let size_factor := min 1 ((10 : ℚ) / (size : ℚ))
  min 100 (base_score * (1/2 + 1/2 * size_factor))

/-- Fallback loop of `calculate_cluster_score` (clusters.py 134-147):
first community containing the profile whose insularity reaches the
threshold wins; otherwise 0. -/
def clusterScoreFallback (G : DiGraph) (threshold : ℚ) (p : Int) :
    List (List Int) → ℚ
  | [] => 0
  | c :: cs =>
    if p ∈ c then
      let ins := calculate_insularity G c
      if threshold ≤ ins then clusterScoreFromData ins c.length
      else clusterScoreFallback G threshold p cs
    else clusterScoreFallback G threshold p cs

/-- clusters.py `calculate_cluster_score`. -/
def calculate_cluster_score (G : DiGraph) (communities : List (List Int))
    (p : Int) (threshold : ℚ) (pre : Option (List (Int × ℚ × Nat))) : ℚ :=
  match pre with
  | some m =>
    match m.find? (fun e => decide (e.1 = p)) with
    | some e => clusterScoreFromData e.2.1 e.2.2
    | none => 0
  | none => clusterScoreFallback G threshold p communities

/-! ## Burst detector (`detectors/bursts.py`) -/

/-- bursts.py `parse_timestamp`: integers above `10^12` are epoch
milliseconds, other integers epoch seconds (`datetime.fromtimestamp`
is the identity on the epoch-seconds representation); strings go
through the abstract ISO parser after the `Z` fix-up; `None` and parse
failures give `none`. -/
def parse_timestamp (TM : TimeModel) : TSVal → Option ℚ
  | .vNone => none
  | .vInt n => if (10^12 : Int) < n then some ((n : ℚ) / 1000) else some (n : ℚ)
  | .vStr s => TM.iso (s.replace "Z" "+00:00")

/-- One raw vouch record, mirroring the dict fields the analysis code
reads. A missing `authorProfileId` / `subjectProfileId` key is `none`;
a missing or falsy `activityCheckpoints` dict is modelled by both
checkpoint fields being `TSVal.vNone` (the `or`-chain then resolves to
a falsy value exactly as in the source). The staked value is a
well-typed wei integer, as the data model prescribes. -/
structure VouchRecord where
  authorProfileId : Option Int
  subjectProfileId : Option Int
  balance : Nat
  staked : Bool
  archived : Bool
  createdAt : TSVal
  timestamp : TSVal
  vouchedAt : TSVal
  vouched : TSVal
  authorUser : Option UserData
  subjectUser : Option UserData
  deriving DecidableEq

/-- bursts.py `get_vouches_for_profile`. -/
def get_vouches_for_profile (vouches : List VouchRecord) (p : Int) :
    List VouchRecord :=
  vouches.filter (fun v => decide (v.subjectProfileId = some p))

/-- Timestamp fallback chain of `group_by_window` (bursts.py 33-45):
`createdAt`, then `timestamp`, then `activityCheckpoints.vouched`. -/
def recordWindowTs (TM : TimeModel) (v : VouchRecord) : Option ℚ :=
  match parse_timestamp TM v.createdAt with
  | some t => some t
  | none =>
    match parse_timestamp TM v.timestamp with
    | some t => some t
    | none => parse_timestamp TM v.vouched

/-- Python `defaultdict` append: extend the window's list in place,
creating the key at the end on first use. -/
def windowsInsert (ws : List (String × List VouchRecord)) (k : String)
    (v : VouchRecord) : List (String × List VouchRecord) :=
  if ws.any (fun e => decide (e.1 = k)) then
    ws.map (fun e => if e.1 = k then (e.1, e.2 ++ [v]) else e)
  else ws ++ [(k, [v])]

/-- bursts.py `group_by_window`: records with a resolvable timestamp
are grouped by calendar-week key (`strftime "%Y-%W"`, the abstract
`weekKey`); the `window_days` parameter is ignored by the source's key
computation and is omitted here. -/
def group_by_window (TM : TimeModel) (vouches : List VouchRecord) :
    List (String × List VouchRecord) :=
  vouches.foldl (fun ws v =>
    match recordWindowTs TM v with
    | some t => windowsInsert ws (TM.weekKey t) v
    | none => ws) []

/-- Per-window record counts (`[len(v) for v in windows.values()]`). -/
def burstCounts (ws : List (String × List VouchRecord)) : List Nat :=
  ws.map (fun w => w.2.length)

/-- `numpy.mean` on a list of counts. -/
def ratMean (l : List Nat) : ℚ :=
  ((l.map (fun (c : ℕ) => (c : ℚ))).sum) / (l.length : ℚ)

/-- Population variance (`numpy.std` squared) on a list of counts. -/
def ratVariance (l : List Nat) : ℚ :=
  ((l.map (fun (c : ℕ) => ((c : ℚ) - ratMean l) * ((c : ℚ) - ratMean l))).sum) /
    (l.length : ℚ)

/-- bursts.py `detect_vouch_burst`. The comparison
`(max - mean) / std > threshold` is expressed without the irrational
square root: for a non-negative threshold it is equivalent to
`threshold² · variance < (max - mean)²` (both sides of the original are
non-negative there), and for a negative threshold it always holds since
`(max - mean) / std ≥ 0` (the mean cannot exceed the max). The
`std == 0` guard is `variance = 0`. -/
def detect_vouch_burst (TM : TimeModel) (vouches : List VouchRecord)
    (p : Int) (stdThreshold : ℚ) : Bool × Nat :=
  let profile_vouches := get_vouches_for_profile vouches p
  if profile_vouches.length < 10 then (false, 0)
  else
    let windows := group_by_window TM profile_vouches
    if windows.length < 3 then (false, 0)
    else
      let counts : List Nat := burstCounts windows
      if ratVariance counts = 0 then (false, 0)
      else
        let max_count : Nat := counts.foldl max 0
        let dev : ℚ := (max_count : ℚ) - ratMean counts
        let zExceeds : Bool :=
          if stdThreshold < 0 then true
          else decide (stdThreshold * stdThreshold * ratVariance counts < dev * dev)
        (zExceeds, max_count)

/-- bursts.py `calculate_burst_score` (threshold 3.0 by default). -/
def calculate_burst_score (TM : TimeModel) (vouches : List VouchRecord)
    (p : Int) : ℚ :=
  let r := detect_vouch_burst TM vouches p 3
  if r.1 = false then 0
  else if 50 ≤ r.2 then 100
  else if 30 ≤ r.2 then 80
  else if 20 ≤ r.2 then 60
  else if 10 ≤ r.2 then 40
  else 20

/-! ## Stake detector (`detectors/stakes.py`) -/

/-- stakes.py `get_incoming_stakes`: weights of all incoming edges. -/
def get_incoming_stakes (G : DiGraph) (p : Int) : List ℚ :=
  (G.edges.filter (fun e => decide (e.1.2 = p))).map (fun e => e.2.weight)

/-- stakes.py `calculate_stake_score`. -/
def calculate_stake_score (G : DiGraph) (p : Int) : ℚ :=
  let stakes := get_incoming_stakes G p
  if stakes.length < 3 then 0
  else
    let avg_stake := stakes.sum / (stakes.length : ℚ)
    let all_weights := G.edges.map (fun e => e.2.weight)
    let network_avg : ℚ :=
      if all_weights = [] then 1/10
      else all_weights.sum / (all_weights.length : ℚ)
    let score1 : ℚ :=
      if 0 < network_avg then
        if avg_stake < network_avg * (1/10) then 50
        else if avg_stake < network_avg * (3/10) then 30
        else if avg_stake < network_avg * (1/2) then 15
        else 0
      else 0
    let tiny_stakes := (stakes.filter (fun s => decide (s < 1/100))).length
    let tiny_ratio : ℚ :=
      if stakes.length = 0 then 0 else (tiny_stakes : ℚ) / (stakes.length : ℚ)
    let score2 : ℚ :=
      if 4/5 < tiny_ratio then 50
      else if 1/2 < tiny_ratio then 30
      else if 3/10 < tiny_ratio then 15
      else 0
    min 100 (score1 + score2)

/-! ## Reciprocity detector (`detectors/reciprocity.py`) -/

/-- reciprocity.py `calculate_reciprocity_ratio`: vouches given over
vouches received, with the neutral value 1.0 at zero in-degree. -/
def calculate_reciprocity_quot (G : DiGraph) (p : Int) : ℚ :=
  let received := G.inDegree p
  let given := G.outDegree p
  if received = 0 then 1 else (given : ℚ) / (received : ℚ)

/-- reciprocity.py `calculate_reciprocity_score`. -/
def calculate_reciprocity_score (G : DiGraph) (p : Int) : ℚ :=
  let q := calculate_reciprocity_quot G p
  let received := G.inDegree p
  if received < 5 then 0
  else if q < 1/20 ∧ 20 < received then 80
  else if q < 1/10 ∧ 10 < received then 60
  else if q < 1/5 then 40
  else if 10 < q then 20
  else 0

/-! ## Graph builder (`graph.py`) -/

/-- graph.py `wei_to_eth`. -/
def wei_to_eth (wei : Nat) : ℚ :=
  (wei : ℚ) / ((10 : ℚ)^18)

/-- Timestamp extraction of `build_vouch_graph` (graph.py 40-54): the
`vouchedAt`-or-`vouched` chain, positivity check for numeric values,
ISO parse for strings; every parse failure is swallowed. -/
def resolveVouchTimestamp (TM : TimeModel) (v : VouchRecord) : Option ℚ :=
  let va := if v.vouchedAt.truthy then v.vouchedAt else v.vouched
  if va.truthy then
    match va with
    | .vInt n => if 0 < n then some (n : ℚ) else none
    | .vStr s => TM.iso (s.replace "Z" "+00:00")
    | .vNone => none
  else none

/-- Append a node to the node list if absent (`networkx` add_edge). -/
def addNode (ns : List Int) (n : Int) : List Int :=
  if n ∈ ns then ns else ns ++ [n]

/-- Replace the first edge entry with the given key. -/
def setEdge (es : List ((Int × Int) × EdgeData)) (k : Int × Int)
    (d : EdgeData) : List ((Int × Int) × EdgeData) :=
  match es with
  | [] => []
  | e :: t => if e.1 = k then (k, d) :: t else e :: setEdge t k d

/-- First-write-wins node attribute attachment (graph.py 75-83). -/
def attachUser (attrs : List (Int × UserData)) (n : Int)
    (u : Option UserData) : List (Int × UserData) :=
  match u with
  | none => attrs
  | some ud =>
    if (attrs.find? (fun e => decide (e.1 = n))).isSome then attrs
    else attrs ++ [(n, ud)]

/-- The earliest-timestamp update of graph.py lines 60-62: a present
incoming timestamp replaces the stored one only when the stored one is
absent or strictly later; an absent incoming timestamp changes
nothing. -/
def updTs (incoming old : Option ℚ) : Option ℚ :=
  match incoming, old with
  | some t, none => some t
  | some t, some t0 => if t < t0 then some t else some t0
  | none, old => old

/-- Processing of a single record inside `build_vouch_graph`
(graph.py 35-83). A record with a missing giver or receiver identifier
raises (`KeyError`), modelled as `Except.error`. -/
def addVouch (TM : TimeModel) (G : DiGraph) (v : VouchRecord) :
    Except Unit DiGraph :=
  match v.authorProfileId, v.subjectProfileId with
  | some author, some subject =>
    let balance := wei_to_eth v.balance
    let timestamp := resolveVouchTimestamp TM v
    let G1 : DiGraph :=
      match G.edgeData author subject with
      | some d =>
        ⟨G.nodes,
         setEdge G.edges (author, subject)
           ⟨d.weight + balance, d.count + 1, d.staked, d.archived,
            updTs timestamp d.timestamp⟩,
         G.attrs⟩
      | none =>
        ⟨addNode (addNode G.nodes author) subject,
         G.edges ++ [((author, subject),
           ⟨balance, 1, v.staked, v.archived, timestamp⟩)],
         G.attrs⟩
    let G2 : DiGraph :=
      ⟨G1.nodes, G1.edges,
       attachUser (attachUser G1.attrs author v.authorUser) subject
         v.subjectUser⟩
    Except.ok G2
  | _, _ => Except.error ()

/-- graph.py `build_vouch_graph`: fold `addVouch` over the records,
aborting at the first record with a missing identifier. -/
def build_vouch_graph (TM : TimeModel) (vouches : List VouchRecord) :
    Except Unit DiGraph :=
  vouches.foldlM (addVouch TM) ⟨[], [], []⟩

/-- graph.py `OFFICIAL_ACCOUNTS`. -/
def OFFICIAL_ACCOUNTS : List String :=
  ["ethosnetwork", "etaborase", "base", "coinbase", "optimism",
   "arbitrum", "jessepollak", "megaeth", "megaethlabs",
   "vitalikbuterin", "caborase"]

/-- Username lookup with the empty-string default (graph.py 90). -/
def usernameOf (G : DiGraph) (n : Int) : String :=
  match G.attrs.find? (fun e => decide (e.1 = n)) with
  | some e => e.2.username
  | none => ""

/-- graph.py `is_official_account`. -/
def is_official_account (G : DiGraph) (n : Int) : Bool :=
  let u := usernameOf G n
  if u = "" then false else decide (u.toLower ∈ OFFICIAL_ACCOUNTS)

/-! ## Composite scorer (`scorer.py`) -/

/-- scorer.py `DEFAULT_WEIGHTS`. -/
structure Weights where
  ring : ℚ
  cluster : ℚ
  burst : ℚ
  stake : ℚ
  reciprocity : ℚ
  deriving DecidableEq

def DEFAULT_WEIGHTS : Weights := ⟨3/10, 1/4, 1/5, 3/20, 1/10⟩

/-- scorer.py `get_risk_level`. -/
def get_risk_level (s : ℚ) : String :=
  if 70 ≤ s then "critical"
  else if 50 ≤ s then "high"
  else if 30 ≤ s then "medium"
  else if 10 ≤ s then "low"
  else "minimal"

/-- scorer.py `RiskBreakdown` (unrounded values). -/
structure RiskBreakdown where
  ring_score : ℚ
  cluster_score : ℚ
  burst_score : ℚ
  stake_score : ℚ
  reciprocity_score : ℚ
  composite_score : ℚ
  risk_level : String
  deriving DecidableEq

/-- The weighted sum of scorer.py lines 120-126. -/
def weightedSum (w : Weights) (r c b s p : ℚ) : ℚ :=
  w.ring * r + w.cluster * c + w.burst * b + w.stake * s + w.reciprocity * p

/-- scorer.py `calculate_risk_score`. -/
def calculate_risk_score (TM : TimeModel) (G : DiGraph)
    (communities : List (List Int)) (p : Int) (vouches : List VouchRecord)
    (weights : Option Weights) (preR : Option (List (List Int)))
    (preC : Option (List (Int × ℚ × Nat))) : RiskBreakdown :=
  let w := weights.getD DEFAULT_WEIGHTS
  if is_official_account G p then ⟨0, 0, 0, 0, 0, 0, "official"⟩
  else
    let ring_score := calculate_ring_score G p 5 preR
    let cluster_score := calculate_cluster_score G communities p (7/10) preC
    let burst_score := calculate_burst_score TM vouches p
    let stake_score := calculate_stake_score G p
    let reciprocity_score := calculate_reciprocity_score G p
    let composite := min 100
      (weightedSum w ring_score cluster_score burst_score stake_score
        reciprocity_score)
    ⟨ring_score, cluster_score, burst_score, stake_score,
     reciprocity_score, composite, get_risk_level composite⟩

/-- Python `round(x, 2)` on the exact value: round half to even at two
decimal places (the binary-float rounding of the source is modelled on
the exact rationals). -/
def roundHalfEven (q : ℚ) : Int :=
  if q - ⌊q⌋ = 1/2 then (if ⌊q⌋ % 2 = 0 then ⌊q⌋ else ⌊q⌋ + 1)
  else round q

def round2 (q : ℚ) : ℚ := ((roundHalfEven (q * 100) : ℚ)) / 100

/-- One entry of the `analyze_all_profiles` result list:
`{"profile_id": ..., **breakdown.to_dict()}` with its two-decimal
rounding (scorer.py 32-42, 167-172). -/
structure ProfileResult where
  profile_id : Int
  ring_score : ℚ
  cluster_score : ℚ
  burst_score : ℚ
  stake_score : ℚ
  reciprocity_score : ℚ
  composite_score : ℚ
  risk_level : String
  deriving DecidableEq

def toProfileResult (p : Int) (b : RiskBreakdown) : ProfileResult :=
  ⟨p, round2 b.ring_score, round2 b.cluster_score, round2 b.burst_score,
   round2 b.stake_score, round2 b.reciprocity_score,
   round2 b.composite_score, b.risk_level⟩

/-- Stable insert for the final descending sort on (rounded) composite
score; ties keep encounter order as with Python's stable sort. -/
def insertByCompositeDesc (x : ProfileResult) :
    List ProfileResult → List ProfileResult
  | [] => [x]
  | y :: ys =>
    if y.composite_score ≤ x.composite_score then x :: y :: ys
    else y :: insertByCompositeDesc x ys

def sortByCompositeDesc (l : List ProfileResult) : List ProfileResult :=
  l.foldr insertByCompositeDesc []

/-- The `rings` field of rings.py `get_ring_stats`, the only part the
pipeline reuses (scorer.py 158-159). -/
def get_ring_stats_rings (G : DiGraph) (maxLen : Nat) : List (List Int) :=
  find_rings G maxLen 10000

/-- scorer.py `analyze_all_profiles`: precompute rings and cluster
data once, score every node, round, and sort by composite descending.
The community partition (`find_communities` output for the run's seed)
is the explicit `communities` argument. -/
def analyze_all_profiles (TM : TimeModel) (G : DiGraph)
    (vouches : List VouchRecord) (weights : Option Weights)
    (communities : List (List Int)) : List ProfileResult :=
  let precomputed_rings := get_ring_stats_rings G 5
  let precomputed_clusters := precompute_cluster_data G communities (7/10)
  let results := G.nodes.map (fun p =>
    toProfileResult p
      (calculate_risk_score TM G communities p vouches weights
        (some precomputed_rings) (some precomputed_clusters)))
  sortByCompositeDesc results

/-! ## Helper facts -/

/-- A degenerate time model used to instantiate witnesses: the ISO
parser always fails and every instant falls in one window. -/
def trivTM : TimeModel := ⟨fun _ => none, fun _ => ""⟩

theorem get_rings_for_profile_eq_nil (G : DiGraph) (p : Int) (maxLen : Nat)
    (h : ∀ r ∈ find_rings G maxLen 10000, p ∉ r) :
    get_rings_for_profile G p maxLen = [] := by
  simp only [get_rings_for_profile, List.filter_eq_nil_iff]
  intro r hr
  simpa using h r hr

/-! ## C10: `parse_timestamp` semantics -/

/-- C10: `parse_timestamp` interprets an integer above `10^12` as epoch
milliseconds (dividing by 1000) and a smaller integer as epoch seconds;
a string whose ISO-8601 parse fails, and a `None` input, yield an
absent timestamp rather than an error. -/
theorem parse_timestamp_c10 (TM : TimeModel) (n : Int) (s : String) :
    ((10 ^ 12 : Int) < n →
      parse_timestamp TM (TSVal.vInt n) = some ((n : ℚ) / 1000)) ∧
    (n < (10 ^ 12 : Int) →
      parse_timestamp TM (TSVal.vInt n) = some ((n : ℚ))) ∧
    (TM.iso (s.replace "Z" "+00:00") = none →
      parse_timestamp TM (TSVal.vStr s) = none) ∧
    parse_timestamp TM TSVal.vNone = none := by
  refine ⟨?_, ?_, ?_, rfl⟩
  · intro h
    show (if (10 ^ 12 : Int) < n then some ((n : ℚ) / 1000)
      else some ((n : ℚ))) = some ((n : ℚ) / 1000)
    rw [if_pos h]
  · intro h
    have h' : ¬ (10 ^ 12 : Int) < n := by omega
    show (if (10 ^ 12 : Int) < n then some ((n : ℚ) / 1000)
      else some ((n : ℚ))) = some ((n : ℚ))
    rw [if_neg h']
  · intro h
    simp [parse_timestamp, h]

theorem parse_timestamp_c10_witness :
    ((10 ^ 12 : Int) < 2 * 10 ^ 12 ∧
      parse_timestamp trivTM (TSVal.vInt (2 * 10 ^ 12))
        = some (((2 * 10 ^ 12 : Int) : ℚ) / 1000)) ∧
    ((1700000000 : Int) < 10 ^ 12 ∧
      parse_timestamp trivTM (TSVal.vInt 1700000000)
        = some ((1700000000 : Int) : ℚ)) ∧
    (trivTM.iso ("nonsense".replace "Z" "+00:00") = none ∧
      parse_timestamp trivTM (TSVal.vStr "nonsense") = none) ∧
    parse_timestamp trivTM TSVal.vNone = none :=
  ⟨⟨by norm_num, (parse_timestamp_c10 trivTM (2 * 10 ^ 12) "").1 (by norm_num)⟩,
   ⟨by norm_num, (parse_timestamp_c10 trivTM 1700000000 "").2.1 (by norm_num)⟩,
   ⟨rfl, (parse_timestamp_c10 trivTM 0 "nonsense").2.2.1 rfl⟩,
   (parse_timestamp_c10 trivTM 0 "").2.2.2⟩

/-! ## C1: ring score of ring-free profiles, and the 3-cycle -/

/-- C1: a profile contained in no detected ring scores exactly 0; on
the graph with edges 1→2, 2→3, 3→1, `find_rings` returns exactly one
ring whose node set is `{1, 2, 3}`, and profile 1's ring score with
neither the stake nor the temporal modifier applying is exactly 40. -/
theorem ring_score_c1 :
    (∀ (G : DiGraph) (p : Int) (maxLen : Nat),
        (∀ r ∈ find_rings G maxLen 10000, p ∉ r) →
        calculate_ring_score G p maxLen none = 0) ∧
    find_rings threeCycle 5 10000 = [[1, 2, 3]] ∧
    (find_rings threeCycle 5 10000).map List.toFinset
      = [({1, 2, 3} : Finset Int)] ∧
    calculate_ring_score threeCycle 1 5 none = 40 := by
  refine ⟨?_, by decide, by decide, ?_⟩
  · intro G p maxLen h
    simp [calculate_ring_score, get_rings_for_profile_eq_nil G p maxLen h]
  · have hp : get_rings_for_profile threeCycle 1 5 = [[1, 2, 3]] := by decide
    have hw : ringWrapPairs [1, 2, 3]
        = [((1 : Int), (2 : Int)), (2, 3), (3, 1)] := by decide
    have he12 : threeCycle.edgeData 1 2 = some midEdge := rfl
    have he23 : threeCycle.edgeData 2 3 = some midEdge := rfl
    have he31 : threeCycle.edgeData 3 1 = some midEdge := rfl
    have hs : get_ring_stake threeCycle [1, 2, 3] = 3/5 := by
      simp [get_ring_stake, hw, he12, he23, he31, midEdge]
      norm_num
    have ht : get_ring_time_span threeCycle [1, 2, 3] = none := by
      simp [get_ring_time_span, hw, he12, he23, he31, midEdge]
    simp [calculate_ring_score, hp, ringContribution, ringBaseScore, hs, ht,
      stakeModifier, temporalModifier]
    norm_num

theorem ring_score_c1_witness :
    (∀ r ∈ find_rings threeCycle 5 10000, (4 : Int) ∉ r) ∧
    calculate_ring_score threeCycle 4 5 none = 0 :=
  ⟨by decide, ring_score_c1.1 threeCycle 4 5 (by decide)⟩

/-! ## C2: insularity as an edge-count quotient -/

/-- Number of stored edges with both endpoints in the community. -/
def internalEdgeCount (G : DiGraph) (c : List Int) : Nat :=
  (G.edges.filter (fun e => decide (e.1.1 ∈ c ∧ e.1.2 ∈ c))).length

/-- Number of stored edges with exactly one endpoint in the community
(each bridging edge counted once). -/
def crossEdgeCount (G : DiGraph) (c : List Int) : Nat :=
  (G.edges.filter (fun e => decide (e.1.1 ∈ c ∧ e.1.2 ∉ c))).length +
  (G.edges.filter (fun e => decide (e.1.2 ∈ c ∧ e.1.1 ∉ c))).length

/-- A community with no edge to any outside node: every edge touching
the community has both endpoints inside it. -/
def SelfContained (G : DiGraph) (c : List Int) : Prop :=
  ∀ e ∈ G.edges, (e.1.1 ∈ c ∨ e.1.2 ∈ c) → (e.1.1 ∈ c ∧ e.1.2 ∈ c)

instance (G : DiGraph) (c : List Int) : Decidable (SelfContained G c) := by
  unfold SelfContained
  infer_instance

theorem sum_map_add_nat {α : Type} (f g : α → ℕ) (l : List α) :
    (l.map (fun x => f x + g x)).sum = (l.map f).sum + (l.map g).sum := by
  induction l with
  | nil => simp
  | cons a t ih => simp [ih]; omega

theorem sum_ite_zero (x : Int) (f : Int → ℕ) :
    ∀ c : List Int, x ∉ c →
      (c.map (fun n => if x = n then f n else 0)).sum = 0 := by
  intro c
  induction c with
  | nil => simp
  | cons a t ih =>
    intro h
    rw [List.mem_cons] at h
    push_neg at h
    simp [List.map_cons, List.sum_cons, if_neg h.1, ih h.2]

theorem sum_ite_mem (x : Int) (f : Int → ℕ) :
    ∀ c : List Int, c.Nodup →
      (c.map (fun n => if x = n then f n else 0)).sum
        = if x ∈ c then f x else 0 := by
  intro c
  induction c with
  | nil => simp
  | cons a t ih =>
    intro hnd
    rw [List.nodup_cons] at hnd
    by_cases hxa : x = a
    · subst hxa
      simp [sum_ite_zero x f t hnd.1]
    · simp [List.map_cons, List.sum_cons, if_neg hxa, ih hnd.2,
        List.mem_cons, hxa]

/-- Double-counting core: summing, over the (duplicate-free) community,
the community-filtered adjacency of each member equals one global count
over the edge list. `f` selects the endpoint matched against the
member, `g` the opposite endpoint, `q` the membership test applied to
the opposite endpoint. -/
theorem adjSum (c : List Int) (hc : c.Nodup) (q : Int → Bool)
    (f g : (Int × Int) × EdgeData → Int) :
    ∀ es : List ((Int × Int) × EdgeData),
      (c.map (fun n =>
        (((es.filter (fun e => decide (f e = n))).map g).filter q).length)).sum
      = (es.filter (fun e => decide (f e ∈ c) && q (g e))).length := by
  intro es
  induction es with
  | nil => simp
  | cons e t ih =>
    have hpt : (fun n =>
        ((((e :: t).filter (fun e' => decide (f e' = n))).map g).filter q).length)
        = (fun n => (if f e = n then (if q (g e) then 1 else 0) else 0) +
            (((t.filter (fun e' => decide (f e' = n))).map g).filter q).length) := by
      funext n
      by_cases h1 : f e = n
      · by_cases h2 : q (g e) = true
        · simp [List.filter_cons, h1, h2]
          omega
        · simp [List.filter_cons, h1, h2]
      · simp [List.filter_cons, h1]
    rw [hpt, sum_map_add_nat, sum_ite_mem (f e) _ c hc, List.filter_cons, ih]
    by_cases h1 : f e ∈ c
    · by_cases h2 : q (g e) = true
      · simp [h1, h2]
        omega
      · simp [h1, h2]
    · simp [h1]

theorem insularity_raw_split (G : DiGraph) (c : List Int) (hc : c.Nodup) :
    (c.map (fun n =>
      ((G.successors n).filter (fun m => decide (m ∈ c))).length +
      ((G.predecessors n).filter (fun m => decide (m ∈ c))).length)).sum
      = 2 * internalEdgeCount G c := by
  rw [sum_map_add_nat]
  have h1 := adjSum c hc (fun m => decide (m ∈ c)) (fun e => e.1.1)
    (fun e => e.1.2) G.edges
  have h2 := adjSum c hc (fun m => decide (m ∈ c)) (fun e => e.1.2)
    (fun e => e.1.1) G.edges
  have e2 : (G.edges.filter
      (fun e => decide (e.1.2 ∈ c) && decide (e.1.1 ∈ c))).length
      = internalEdgeCount G c := by
    unfold internalEdgeCount
    congr 1
    apply List.filter_congr
    intro e _
    simp [Bool.and_comm]
  have e1 : (G.edges.filter
      (fun e => decide (e.1.1 ∈ c) && decide (e.1.2 ∈ c))).length
      = internalEdgeCount G c := by
    unfold internalEdgeCount
    congr 1
    apply List.filter_congr
    intro e _
    simp
  rw [show (fun n => ((G.successors n).filter (fun m => decide (m ∈ c))).length)
      = (fun n => (((G.edges.filter (fun e => decide (e.1.1 = n))).map
          (fun e => e.1.2)).filter (fun m => decide (m ∈ c))).length) from rfl]
  rw [show (fun n => ((G.predecessors n).filter (fun m => decide (m ∈ c))).length)
      = (fun n => (((G.edges.filter (fun e => decide (e.1.2 = n))).map
          (fun e => e.1.1)).filter (fun m => decide (m ∈ c))).length) from rfl]
  rw [h1, h2, e1, e2]
  omega

theorem insularity_external_split (G : DiGraph) (c : List Int) (hc : c.Nodup) :
    (c.map (fun n =>
      ((G.successors n).filter (fun m => decide (m ∉ c))).length +
      ((G.predecessors n).filter (fun m => decide (m ∉ c))).length)).sum
      = crossEdgeCount G c := by
  rw [sum_map_add_nat]
  have h1 := adjSum c hc (fun m => decide (m ∉ c)) (fun e => e.1.1)
    (fun e => e.1.2) G.edges
  have h2 := adjSum c hc (fun m => decide (m ∉ c)) (fun e => e.1.2)
    (fun e => e.1.1) G.edges
  have e1 : (G.edges.filter
      (fun e => decide (e.1.1 ∈ c) && decide (e.1.2 ∉ c))).length
      = (G.edges.filter (fun e => decide (e.1.1 ∈ c ∧ e.1.2 ∉ c))).length := by
    congr 1
    apply List.filter_congr
    intro e _
    simp
  have e2 : (G.edges.filter
      (fun e => decide (e.1.2 ∈ c) && decide (e.1.1 ∉ c))).length
      = (G.edges.filter (fun e => decide (e.1.2 ∈ c ∧ e.1.1 ∉ c))).length := by
    congr 1
    apply List.filter_congr
    intro e _
    simp
  rw [show (fun n => ((G.successors n).filter (fun m => decide (m ∉ c))).length)
      = (fun n => (((G.edges.filter (fun e => decide (e.1.1 = n))).map
          (fun e => e.1.2)).filter (fun m => decide (m ∉ c))).length) from rfl]
  rw [show (fun n => ((G.predecessors n).filter (fun m => decide (m ∉ c))).length)
      = (fun n => (((G.edges.filter (fun e => decide (e.1.2 = n))).map
          (fun e => e.1.1)).filter (fun m => decide (m ∉ c))).length) from rfl]
  rw [h1, h2, e1, e2]
  unfold crossEdgeCount
  omega

/-- The quotient identity behind `calculate_insularity` (in `ℚ`,
`0 / 0 = 0`, matching the `total == 0` early return). -/
theorem insularity_eq (G : DiGraph) (c : List Int) (hc : c.Nodup) :
    calculate_insularity G c
      = (internalEdgeCount G c : ℚ) /
          ((internalEdgeCount G c : ℚ) + (crossEdgeCount G c : ℚ)) := by
  unfold calculate_insularity
  rw [insularity_raw_split G c hc, insularity_external_split G c hc]
  dsimp only
  rw [Nat.mul_div_cancel_left _ (by norm_num : 0 < 2)]
  by_cases h : internalEdgeCount G c + crossEdgeCount G c = 0
  · rw [if_pos h]
    have h1 : internalEdgeCount G c = 0 := by omega
    have h2 : crossEdgeCount G c = 0 := by omega
    rw [h1, h2]
    norm_num
  · rw [if_neg h]
    push_cast
    ring_nf

theorem crossEdgeCount_eq_zero (G : DiGraph) (c : List Int)
    (hsc : SelfContained G c) : crossEdgeCount G c = 0 := by
  unfold crossEdgeCount
  have f1 : G.edges.filter (fun e => decide (e.1.1 ∈ c ∧ e.1.2 ∉ c)) = [] := by
    rw [List.filter_eq_nil_iff]
    intro e he
    simp only [decide_eq_true_eq, not_and, not_not]
    intro h1
    exact (hsc e he (Or.inl h1)).2
  have f2 : G.edges.filter (fun e => decide (e.1.2 ∈ c ∧ e.1.1 ∉ c)) = [] := by
    rw [List.filter_eq_nil_iff]
    intro e he
    simp only [decide_eq_true_eq, not_and, not_not]
    intro h1
    exact (hsc e he (Or.inr h1)).1
  rw [f1, f2]
  rfl

/-- C2: insularity is (internal edge count) over (internal plus
external edge count) with internal edges counted once; a community
with at least one edge and no edge to any outside node has insularity
exactly 1; appending one bridging edge from a member to a non-member
strictly decreases it. -/
theorem insularity_c2 :
    (∀ (G : DiGraph) (c : List Int), c.Nodup →
      calculate_insularity G c
        = (internalEdgeCount G c : ℚ) /
            ((internalEdgeCount G c : ℚ) + (crossEdgeCount G c : ℚ))) ∧
    (∀ (G : DiGraph) (c : List Int), c.Nodup → SelfContained G c →
      0 < internalEdgeCount G c → calculate_insularity G c = 1) ∧
    (∀ (G : DiGraph) (c : List Int) (u v : Int) (d : EdgeData),
      c.Nodup → SelfContained G c → 0 < internalEdgeCount G c →
      u ∈ c → v ∉ c →
      calculate_insularity ⟨G.nodes, G.edges ++ [((u, v), d)], G.attrs⟩ c
        < calculate_insularity G c) := by
  refine ⟨fun G c hc => insularity_eq G c hc, ?_, ?_⟩
  · intro G c hc hsc hpos
    rw [insularity_eq G c hc, crossEdgeCount_eq_zero G c hsc]
    have hq : (0 : ℚ) < (internalEdgeCount G c : ℚ) := by
      exact_mod_cast hpos
    rw [Nat.cast_zero, add_zero, div_self (ne_of_gt hq)]
  · intro G c u v d hc hsc hpos hu hv
    have hI' : internalEdgeCount ⟨G.nodes, G.edges ++ [((u, v), d)], G.attrs⟩ c
        = internalEdgeCount G c := by
      unfold internalEdgeCount
      simp [List.filter_append, hv]
    have hX' : crossEdgeCount ⟨G.nodes, G.edges ++ [((u, v), d)], G.attrs⟩ c
        = crossEdgeCount G c + 1 := by
      unfold crossEdgeCount
      simp [List.filter_append, hu, hv]
      omega
    rw [insularity_eq _ c hc, insularity_eq G c hc, hI', hX',
      crossEdgeCount_eq_zero G c hsc]
    have hq : (0 : ℚ) < (internalEdgeCount G c : ℚ) := by
      exact_mod_cast hpos
    rw [Nat.cast_zero, add_zero, div_self (ne_of_gt hq), Nat.cast_add,
      Nat.cast_zero, Nat.cast_one, zero_add]
    rw [div_lt_one (by linarith)]
    linarith

theorem insularity_c2_witness :
    ([1, 2, 3] : List Int).Nodup ∧ SelfContained threeCycle [1, 2, 3] ∧
    0 < internalEdgeCount threeCycle [1, 2, 3] ∧
    calculate_insularity threeCycle [1, 2, 3] = 1 ∧
    calculate_insularity
        ⟨threeCycle.nodes, threeCycle.edges ++ [((1, 4), midEdge)],
         threeCycle.attrs⟩ [1, 2, 3]
      < calculate_insularity threeCycle [1, 2, 3] :=
  ⟨by decide, by decide, by decide,
   insularity_c2.2.1 threeCycle [1, 2, 3] (by decide) (by decide) (by decide),
   insularity_c2.2.2 threeCycle [1, 2, 3] 1 4 midEdge (by decide) (by decide)
     (by decide) (by decide) (by decide)⟩

/-! ## C9: burst-detector guard clauses -/

theorem sum_cast_const (k : Nat) :
    ∀ l : List Nat, (∀ x ∈ l, x = k) →
      (l.map (fun (c : ℕ) => (c : ℚ))).sum = (l.length : ℚ) * k := by
  intro l
  induction l with
  | nil => simp
  | cons a t ih =>
    intro hall
    have ha : a = k := hall a (by simp)
    have ht : ∀ x ∈ t, x = k := fun x hx => hall x (by simp [hx])
    rw [List.map_cons, List.sum_cons, ih ht, ha, List.length_cons]
    push_cast
    ring

theorem ratMean_const (l : List Nat) (k : Nat) (hne : l ≠ [])
    (hall : ∀ x ∈ l, x = k) : ratMean l = k := by
  have hn : (l.length : ℚ) ≠ 0 := by
    have := List.length_pos.mpr hne
    exact_mod_cast Nat.pos_iff_ne_zero.mp this
  unfold ratMean
  rw [sum_cast_const k l hall, mul_comm, mul_div_assoc, div_self hn, mul_one]

theorem ratVariance_const (l : List Nat) (k : Nat) (hne : l ≠ [])
    (hall : ∀ x ∈ l, x = k) : ratVariance l = 0 := by
  unfold ratVariance
  have hz : (l.map (fun (c : ℕ) => ((c : ℚ) - ratMean l) * ((c : ℚ) - ratMean l))).sum
      = 0 := by
    apply List.sum_eq_zero
    intro x hx
    obtain ⟨c0, hc0, hfc⟩ := List.mem_map.mp hx
    rw [← hfc, ratMean_const l k hne hall, hall c0 hc0, sub_self, mul_zero]
  rw [hz, zero_div]

/-- C9: the burst detector reports no burst (and the burst score is 0)
whenever the profile has fewer than 10 received records, or the
received records fall into fewer than 3 distinct calendar-week windows,
or all window counts are equal (zero variance). -/
theorem burst_guards_c9 (TM : TimeModel) (vouches : List VouchRecord)
    (p : Int) (t : ℚ) :
    ((get_vouches_for_profile vouches p).length < 10 →
      detect_vouch_burst TM vouches p t = (false, 0) ∧
      calculate_burst_score TM vouches p = 0) ∧
    ((group_by_window TM (get_vouches_for_profile vouches p)).length < 3 →
      detect_vouch_burst TM vouches p t = (false, 0) ∧
      calculate_burst_score TM vouches p = 0) ∧
    ((∀ w ∈ group_by_window TM (get_vouches_for_profile vouches p),
        ∀ w' ∈ group_by_window TM (get_vouches_for_profile vouches p),
        w.2.length = w'.2.length) →
      detect_vouch_burst TM vouches p t = (false, 0) ∧
      calculate_burst_score TM vouches p = 0) := by
  have d1 : (get_vouches_for_profile vouches p).length < 10 →
      ∀ t' : ℚ, detect_vouch_burst TM vouches p t' = (false, 0) := by
    intro h t'
    unfold detect_vouch_burst
    rw [if_pos h]
  have d2 : (group_by_window TM (get_vouches_for_profile vouches p)).length < 3 →
      ∀ t' : ℚ, detect_vouch_burst TM vouches p t' = (false, 0) := by
    intro h t'
    by_cases h10 : (get_vouches_for_profile vouches p).length < 10
    · exact d1 h10 t'
    · unfold detect_vouch_burst
      rw [if_neg h10, if_pos h]
  have d3 : (∀ w ∈ group_by_window TM (get_vouches_for_profile vouches p),
      ∀ w' ∈ group_by_window TM (get_vouches_for_profile vouches p),
      w.2.length = w'.2.length) →
      ∀ t' : ℚ, detect_vouch_burst TM vouches p t' = (false, 0) := by
    intro hall t'
    by_cases h10 : (get_vouches_for_profile vouches p).length < 10
    · exact d1 h10 t'
    by_cases h3 : (group_by_window TM (get_vouches_for_profile vouches p)).length < 3
    · exact d2 h3 t'
    have hne : group_by_window TM (get_vouches_for_profile vouches p) ≠ [] := by
      intro hcon
      rw [hcon] at h3
      simp at h3
    obtain ⟨w0, hw0⟩ := List.exists_mem_of_ne_nil _ hne
    have hvar : ratVariance
        (burstCounts (group_by_window TM (get_vouches_for_profile vouches p)))
        = 0 := by
      apply ratVariance_const _ w0.2.length
      · intro hcon
        unfold burstCounts at hcon
        rw [List.map_eq_nil_iff] at hcon
        exact hne hcon
      · intro x hx
        obtain ⟨w, hw, rfl⟩ := List.mem_map.mp hx
        exact hall w hw w0 hw0
    unfold detect_vouch_burst
    rw [if_neg h10, if_neg h3, if_pos hvar]
  have dscore : detect_vouch_burst TM vouches p 3 = (false, 0) →
      calculate_burst_score TM vouches p = 0 := by
    intro h
    unfold calculate_burst_score
    rw [h]
    simp
  exact ⟨fun h => ⟨d1 h t, dscore (d1 h 3)⟩,
    fun h => ⟨d2 h t, dscore (d2 h 3)⟩,
    fun h => ⟨d3 h t, dscore (d3 h 3)⟩⟩

theorem burst_guards_c9_witness :
    (get_vouches_for_profile [] (1 : Int)).length < 10 ∧
    detect_vouch_burst trivTM [] 1 3 = (false, 0) ∧
    calculate_burst_score trivTM [] 1 = 0 :=
  ⟨by decide,
   ((burst_guards_c9 trivTM [] 1 3).1 (by decide)).1,
   ((burst_guards_c9 trivTM [] 1 3).1 (by decide)).2⟩

/-! ## C3: composite formula, monotonicity and bounds -/

theorem stakeModifier_pos (x : ℚ) : 0 < stakeModifier x := by
  unfold stakeModifier
  split_ifs <;> norm_num

theorem temporalModifier_pos (o : Option ℚ) : 0 < temporalModifier o := by
  cases o with
  | none => norm_num [temporalModifier]
  | some s =>
    show 0 < if s ≠ 0 ∧ s < 604800 then (13/10 : ℚ)
      else if s ≠ 0 ∧ 7776000 < s then 4/5 else 1
    split_ifs <;> norm_num

theorem ringContribution_nonneg (G : DiGraph) (r : List Int) :
    0 ≤ ringContribution G r := by
  unfold ringContribution
  cases h : ringBaseScore r.length with
  | none => simp
  | some base =>
    have hb : 0 ≤ base := by
      unfold ringBaseScore at h
      split_ifs at h <;> simp_all <;> linarith
    exact mul_nonneg
      (mul_nonneg hb (stakeModifier_pos (get_ring_stake G r)).le)
      (temporalModifier_pos (get_ring_time_span G r)).le

theorem calculate_ring_score_nonneg (G : DiGraph) (p : Int) (maxLen : Nat)
    (pre : Option (List (List Int))) :
    0 ≤ calculate_ring_score G p maxLen pre := by
  have key : ∀ rs : List (List Int),
      (0 : ℚ) ≤ if rs = [] then 0
        else min 100 ((rs.map (ringContribution G)).sum) := by
    intro rs
    split_ifs
    · norm_num
    · refine le_min (by norm_num) ?_
      apply List.sum_nonneg
      intro x hx
      obtain ⟨r, _, hrx⟩ := List.mem_map.mp hx
      rw [← hrx]
      exact ringContribution_nonneg G r
  unfold calculate_ring_score
  cases pre with
  | none => exact key _
  | some rs => exact key _

theorem insularity_nonneg (G : DiGraph) (c : List Int) :
    0 ≤ calculate_insularity G c := by
  unfold calculate_insularity
  dsimp only
  split_ifs
  · norm_num
  · positivity

theorem clusterScoreFromData_nonneg (ins : ℚ) (size : Nat) (h : 0 ≤ ins) :
    0 ≤ clusterScoreFromData ins size := by
  unfold clusterScoreFromData
  dsimp only
  refine le_min (by norm_num) ?_
  have hsf : (0 : ℚ) ≤ min 1 ((10 : ℚ) / (size : ℚ)) :=
    le_min (by norm_num) (by positivity)
  nlinarith

theorem dictUpsert_mem (m : List (Int × ℚ × Nat)) (k : Int) (v : ℚ × Nat) :
    ∀ e ∈ dictUpsert m k v, e ∈ m ∨ e = (k, v) := by
  intro e he
  unfold dictUpsert at he
  split_ifs at he
  · obtain ⟨x, hx, hfx⟩ := List.mem_map.mp he
    by_cases hxk : x.1 = k
    · rw [if_pos hxk] at hfx
      right
      exact hfx.symm
    · rw [if_neg hxk] at hfx
      left
      rw [← hfx]
      exact hx
  · rw [List.mem_append] at he
    rcases he with h | h
    · left; exact h
    · right; simpa using h

theorem inner_fold_nonneg (ins : ℚ) (len : Nat) (hins : 0 ≤ ins) :
    ∀ (c : List Int) (acc : List (Int × ℚ × Nat)),
      (∀ e ∈ acc, 0 ≤ e.2.1) →
      ∀ e ∈ c.foldl (fun m p => dictUpsert m p (ins, len)) acc, 0 ≤ e.2.1 := by
  intro c
  induction c with
  | nil => intro acc h; exact h
  | cons p t ih =>
    intro acc hacc
    rw [List.foldl_cons]
    apply ih
    intro e he
    rcases dictUpsert_mem acc p (ins, len) e he with h | h
    · exact hacc e h
    · rw [h]
      exact hins

theorem precompute_cluster_data_nonneg (G : DiGraph)
    (comms : List (List Int)) (th : ℚ) :
    ∀ e ∈ precompute_cluster_data G comms th, 0 ≤ e.2.1 := by
  unfold precompute_cluster_data
  suffices h : ∀ (cs : List (List Int)) (acc : List (Int × ℚ × Nat)),
      (∀ e ∈ acc, 0 ≤ e.2.1) →
      ∀ e ∈ cs.foldl (fun acc c =>
        if c.length < 3 then acc
        else
          let ins := calculate_insularity G c
          if th ≤ ins then
            c.foldl (fun m p => dictUpsert m p (ins, c.length)) acc
          else acc) acc, 0 ≤ e.2.1 by
    exact h comms [] (by simp)
  intro cs
  induction cs with
  | nil => intro acc h; exact h
  | cons c t ih =>
    intro acc hacc
    rw [List.foldl_cons]
    apply ih
    dsimp only
    split_ifs with h1 h2
    · exact hacc
    · exact inner_fold_nonneg _ _ (insularity_nonneg G c) c acc hacc
    · exact hacc

theorem clusterScoreFallback_nonneg (G : DiGraph) (th : ℚ) (p : Int) :
    ∀ cs : List (List Int), 0 ≤ clusterScoreFallback G th p cs := by
  intro cs
  induction cs with
  | nil => exact le_refl 0
  | cons c t ih =>
    unfold clusterScoreFallback
    dsimp only
    split_ifs
    · exact clusterScoreFromData_nonneg _ _ (insularity_nonneg G c)
    · exact ih
    · exact ih

theorem calculate_cluster_score_nonneg (G : DiGraph)
    (comms : List (List Int)) (p : Int) (th : ℚ)
    (pre : Option (List (Int × ℚ × Nat)))
    (hpre : pre = none ∨ ∃ comms2 th2,
      pre = some (precompute_cluster_data G comms2 th2)) :
    0 ≤ calculate_cluster_score G comms p th pre := by
  rcases hpre with rfl | ⟨c2, t2, rfl⟩
  · exact clusterScoreFallback_nonneg G th p comms
  · show (0 : ℚ) ≤ match (precompute_cluster_data G c2 t2).find?
        (fun e => decide (e.1 = p)) with
      | some e => clusterScoreFromData e.2.1 e.2.2
      | none => 0
    cases hf : (precompute_cluster_data G c2 t2).find?
        (fun e => decide (e.1 = p)) with
    | none => norm_num
    | some e =>
      exact clusterScoreFromData_nonneg _ _
        (precompute_cluster_data_nonneg G c2 t2 e (List.mem_of_find?_eq_some hf))

theorem calculate_burst_score_nonneg (TM : TimeModel)
    (vouches : List VouchRecord) (p : Int) :
    0 ≤ calculate_burst_score TM vouches p := by
  unfold calculate_burst_score
  dsimp only
  split_ifs <;> norm_num

theorem calculate_stake_score_nonneg (G : DiGraph) (p : Int) :
    0 ≤ calculate_stake_score G p := by
  unfold calculate_stake_score
  dsimp only
  split_ifs <;> norm_num

theorem calculate_reciprocity_score_nonneg (G : DiGraph) (p : Int) :
    0 ≤ calculate_reciprocity_score G p := by
  unfold calculate_reciprocity_score
  dsimp only
  split_ifs <;> norm_num

/-- C3: with default weights the returned composite equals
`min(100, 0.30·ring + 0.25·cluster + 0.20·burst + 0.15·stake +
0.10·reciprocity)`; the combination is monotone in every single
subscore; and the composite always lies in `[0, 100]`. -/
theorem risk_score_c3 :
    (∀ (TM : TimeModel) (G : DiGraph) (comms : List (List Int)) (p : Int)
        (vouches : List VouchRecord) (preR : Option (List (List Int)))
        (preC : Option (List (Int × ℚ × Nat))),
      (calculate_risk_score TM G comms p vouches none preR preC).composite_score
        = min 100 (weightedSum DEFAULT_WEIGHTS
            (calculate_risk_score TM G comms p vouches none preR preC).ring_score
            (calculate_risk_score TM G comms p vouches none preR preC).cluster_score
            (calculate_risk_score TM G comms p vouches none preR preC).burst_score
            (calculate_risk_score TM G comms p vouches none preR preC).stake_score
            (calculate_risk_score TM G comms p vouches none preR preC).reciprocity_score)) ∧
    (∀ r c b s p r' c' b' s' p' : ℚ, r ≤ r' → c ≤ c' → b ≤ b' → s ≤ s' → p ≤ p' →
      min 100 (weightedSum DEFAULT_WEIGHTS r c b s p)
        ≤ min 100 (weightedSum DEFAULT_WEIGHTS r' c' b' s' p')) ∧
    (∀ (TM : TimeModel) (G : DiGraph) (comms : List (List Int)) (p : Int)
        (vouches : List VouchRecord) (preR : Option (List (List Int)))
        (preC : Option (List (Int × ℚ × Nat))),
      (preC = none ∨ ∃ comms2 th2,
        preC = some (precompute_cluster_data G comms2 th2)) →
      0 ≤ (calculate_risk_score TM G comms p vouches none preR preC).composite_score ∧
      (calculate_risk_score TM G comms p vouches none preR preC).composite_score ≤ 100) := by
  refine ⟨?_, ?_, ?_⟩
  · intro TM G comms p vouches preR preC
    unfold calculate_risk_score
    split_ifs with h
    · dsimp only
      unfold weightedSum
      norm_num
    · dsimp only
      rfl
  · intro r c b s p r' c' b' s' p' hr hc hb hs hp
    apply min_le_min le_rfl
    unfold weightedSum DEFAULT_WEIGHTS
    dsimp only
    linarith
  · intro TM G comms p vouches preR preC hpre
    unfold calculate_risk_score
    split_ifs with h
    · dsimp only
      norm_num
    · dsimp only
      constructor
      · refine le_min (by norm_num) ?_
        unfold weightedSum DEFAULT_WEIGHTS
        simp only [Option.getD_none]
        have h1 := calculate_ring_score_nonneg G p 5 preR
        have h2 := calculate_cluster_score_nonneg G comms p (7/10) preC hpre
        have h3 := calculate_burst_score_nonneg TM vouches p
        have h4 := calculate_stake_score_nonneg G p
        have h5 := calculate_reciprocity_score_nonneg G p
        linarith
      · exact min_le_left _ _

theorem risk_score_c3_witness :
    ((0 : ℚ) ≤ 1 ∧
      min 100 (weightedSum DEFAULT_WEIGHTS 0 0 0 0 0)
        ≤ min 100 (weightedSum DEFAULT_WEIGHTS 1 0 0 0 0)) ∧
    (0 ≤ (calculate_risk_score trivTM threeCycle [] 1 [] none none
        none).composite_score ∧
      (calculate_risk_score trivTM threeCycle [] 1 [] none none
        none).composite_score ≤ 100) :=
  ⟨⟨by norm_num,
    risk_score_c3.2.1 0 0 0 0 0 1 0 0 0 0 (by norm_num) le_rfl le_rfl le_rfl
      le_rfl⟩,
   risk_score_c3.2.2 trivTM threeCycle [] 1 [] none none (Or.inl rfl)⟩

/-! ## C5: the per-origin BFS enqueue condition -/

instance (G : DiGraph) (maxLen : Nat) (r : List Int) :
    Decidable (IsRing G maxLen r) := by
  unfold IsRing
  infer_instance

/-- C5 counterexample: in the graph 1→2, 2→3, 2→4, 4→3, 3→1 the rings
`[1,2,3]` and `[1,2,4,3]` both pass through origin 1 and first
successor 2 and share node 3; the per-origin search records only the
first. Moreover, at the BFS step that processes `(4, [1,2,4])`,
successor 3 is not on the current path and the path is shorter than the
maximum, yet nothing is enqueued (3 is in the traversal-wide visited
set) — refuting the claimed per-path enqueue condition. -/
theorem ring_bfs_c5_counterexample :
    find_rings_around_node overlapGraph 1 5 = [[1, 2, 3]] ∧
    IsRing overlapGraph 5 [1, 2, 4, 3] ∧
    [1, 2, 4, 3] ∉ find_rings_around_node overlapGraph 1 5 ∧
    (∀ r ∈ find_rings_around_node overlapGraph 1 5,
      r.toFinset ≠ [1, 2, 4, 3].toFinset) ∧
    ((3 : Int) ∉ [1, 2, 4] ∧ [1, 2, 4].length < 5 ∧
      (expandSuccs 1 5 [1, 2, 4] (overlapGraph.successors 4)
        [1, 2, 3, 4]).2.2 = []) := by
  refine ⟨by decide, by decide, by decide, by decide, by decide, by decide,
    by decide⟩

/-- C5 amended: a successor generates a queue entry if and only if it
is absent from the traversal-wide visited set (shared by all paths of
the seed, not just the current path) and the current path length is
below the maximum. -/
theorem expand_enqueue_iff (start : Int) (maxLen : Nat) (path : List Int)
    (s : Int) :
    ∀ (ss visited : List Int), start ∈ visited →
      ((s, path ++ [s]) ∈ (expandSuccs start maxLen path ss visited).2.2 ↔
        s ∈ ss ∧ s ∉ visited ∧ path.length < maxLen) := by
  intro ss
  induction ss with
  | nil =>
    intro visited hstart
    simp [expandSuccs]
  | cons a t ih =>
    intro visited hstart
    simp only [expandSuccs]
    split_ifs with h1 h2
    · dsimp only
      rw [ih visited hstart]
      constructor
      · rintro ⟨hs, hnv, hlen⟩
        exact ⟨List.mem_cons_of_mem a hs, hnv, hlen⟩
      · rintro ⟨hs, hnv, hlen⟩
        rcases List.mem_cons.mp hs with rfl | hs'
        · exact absurd (h1.1 ▸ hstart) hnv
        · exact ⟨hs', hnv, hlen⟩
    · dsimp only
      rw [List.mem_cons]
      constructor
      · rintro (heq | hmem)
        · have hsa : s = a := congrArg Prod.fst heq
          subst hsa
          exact ⟨List.mem_cons_self s t, h2.1, h2.2⟩
        · have := (ih (visited ++ [a]) (List.mem_append_left _ hstart)).mp hmem
          refine ⟨List.mem_cons_of_mem a this.1, ?_, this.2.2⟩
          intro hsv
          exact this.2.1 (List.mem_append_left _ hsv)
      · rintro ⟨hs, hnv, hlen⟩
        rcases List.mem_cons.mp hs with rfl | hs'
        · left
          rfl
        · by_cases hsa : s = a
          · subst hsa
            left
            rfl
          · right
            refine (ih (visited ++ [a])
              (List.mem_append_left _ hstart)).mpr ⟨hs', ?_, hlen⟩
            intro hsv
            rcases List.mem_append.mp hsv with h | h
            · exact hnv h
            · simp at h
              exact hsa h
    · rw [ih visited hstart]
      constructor
      · rintro ⟨hs, hnv, hlen⟩
        exact ⟨List.mem_cons_of_mem a hs, hnv, hlen⟩
      · rintro ⟨hs, hnv, hlen⟩
        rcases List.mem_cons.mp hs with rfl | hs'
        · rw [not_and_or] at h2
          rcases h2 with h | h
          · rw [not_not] at h
            exact absurd h hnv
          · exact absurd hlen h
        · exact ⟨hs', hnv, hlen⟩

theorem expand_enqueue_iff_witness :
    (1 : Int) ∈ [1, 2] ∧
    (((3 : Int), [1, 2] ++ [3]) ∈ (expandSuccs 1 5 [1, 2] [3] [1, 2]).2.2 ↔
      (3 : Int) ∈ [3] ∧ (3 : Int) ∉ [1, 2] ∧ List.length [1, 2] < 5) :=
  ⟨by decide, expand_enqueue_iff 1 5 [1, 2] 3 [3] [1, 2] (by decide)⟩

/-! ## C6: shape of the `find_rings` output -/

/-- Counterexample graph for the distinctness part of the ring-shape
claim: a self-loop at node 1 plus the 2-cycle 1⇄2. -/
def selfLoopGraph : DiGraph :=
  ⟨[1, 2], [((1, 1), midEdge), ((1, 2), midEdge), ((2, 1), midEdge)], []⟩

/-- A graph without self-loops. -/
def NoSelfLoop (G : DiGraph) : Prop :=
  ∀ e ∈ G.edges, e.1.1 ≠ e.1.2

instance (G : DiGraph) : Decidable (NoSelfLoop G) := by
  unfold NoSelfLoop
  infer_instance

instance (G : DiGraph) : Decidable G.WF := by
  unfold DiGraph.WF
  infer_instance

theorem mem_successors_exists (G : DiGraph) (u s : Int)
    (h : s ∈ G.successors u) :
    ∃ e ∈ G.edges, e.1.1 = u ∧ e.1.2 = s := by
  unfold DiGraph.successors at h
  obtain ⟨e, he, hes⟩ := List.mem_map.mp h
  rw [List.mem_filter] at he
  exact ⟨e, he.1, by simpa using he.2, hes⟩

theorem mem_successors_hasEdge (G : DiGraph) (u s : Int)
    (h : s ∈ G.successors u) : G.hasEdge u s = true := by
  obtain ⟨e, he, h1, h2⟩ := mem_successors_exists G u s h
  unfold DiGraph.hasEdge DiGraph.edgeData
  have hs : (List.find? (fun e => decide (e.1 = (u, s))) G.edges).isSome
      = true := by
    rw [List.find?_isSome]
    exact ⟨e, he, by simp [Prod.ext_iff, h1, h2]⟩
  obtain ⟨x, hx⟩ := Option.isSome_iff_exists.mp hs
  rw [hx]
  rfl

theorem mem_successors_node (G : DiGraph) (hwf : G.WF) (u s : Int)
    (h : s ∈ G.successors u) : s ∈ G.nodes := by
  obtain ⟨e, he, _, h2⟩ := mem_successors_exists G u s h
  rw [← h2]
  exact (hwf e he).2

theorem mem_successors_ne (G : DiGraph) (hnl : NoSelfLoop G) (u s : Int)
    (h : s ∈ G.successors u) : u ≠ s := by
  obtain ⟨e, he, h1, h2⟩ := mem_successors_exists G u s h
  rw [← h1, ← h2]
  exact hnl e he

theorem chain_zip_rotate (E : Int → Int → Prop) :
    ∀ (t : List Int) (a b : Int), List.Chain' E (a :: t) →
      E ((a :: t).getLast (List.cons_ne_nil a t)) b →
      ∀ pr ∈ (a :: t).zip (t ++ [b]), E pr.1 pr.2 := by
  intro t
  induction t with
  | nil =>
    intro a b _ hl pr hpr
    have hab : E a b := by simpa using hl
    have hpr' : pr = (a, b) := by simpa using hpr
    rw [hpr']
    exact hab
  | cons c t' ih =>
    intro a b hch hl pr hpr
    rw [List.cons_append, List.zip_cons_cons] at hpr
    rcases List.mem_cons.mp hpr with hpr | hpr
    · rw [hpr]
      exact (List.chain'_cons.mp hch).1
    · refine ih c b (List.chain'_cons.mp hch).2 ?_ pr hpr
      rwa [List.getLast_cons (List.cons_ne_nil c t')] at hl

/-- Invariant carried by every queue entry `(current, path)` of the
per-origin BFS, relative to the current visited set. -/
structure QEntryInv (G : DiGraph) (start : Int) (visited : List Int)
    (e : Int × List Int) : Prop where
  head_eq : e.2.head? = some start
  last_eq : e.2.getLast? = some e.1
  nodup : e.2.Nodup
  len2 : 2 ≤ e.2.length
  sub_nodes : ∀ x ∈ e.2, x ∈ G.nodes
  sub_vis : ∀ x ∈ e.2, x ∈ visited
  chain : List.Chain' (fun a b => G.hasEdge a b = true) e.2

theorem QEntryInv.mono {G : DiGraph} {start : Int} {v v' : List Int}
    {e : Int × List Int} (hsub : ∀ x ∈ v, x ∈ v')
    (h : QEntryInv G start v e) : QEntryInv G start v' e :=
  ⟨h.head_eq, h.last_eq, h.nodup, h.len2, h.sub_nodes,
   fun x hx => hsub x (h.sub_vis x hx), h.chain⟩

/-- A path satisfying the queue invariant that closes back to the
origin is a valid ring. -/
theorem isRing_of_inv (G : DiGraph) (start : Int) (maxLen : Nat)
    (current : Int) (path : List Int) (visited : List Int)
    (hq : QEntryInv G start visited (current, path))
    (h3 : 3 ≤ path.length) (hle : path.length ≤ maxLen)
    (hback : G.hasEdge current start = true) :
    IsRing G maxLen path := by
  rcases path with _ | ⟨a, t⟩
  · simp at h3
  have ha : a = start := by
    have := hq.head_eq
    simp at this
    exact this
  refine ⟨h3, hle, hq.nodup, hq.sub_nodes, ?_⟩
  intro pr hpr
  unfold ringWrapPairs at hpr
  rw [List.rotate_cons_succ, List.rotate_zero] at hpr
  refine chain_zip_rotate (fun a b => G.hasEdge a b = true) t a a hq.chain ?_ pr hpr
  have hlast : (a :: t).getLast (List.cons_ne_nil a t) = current := by
    have := hq.last_eq
    rwa [List.getLast?_eq_getLast (a :: t) (List.cons_ne_nil a t),
      Option.some_inj] at this
  rw [hlast, ha]
  exact hback

/-- Specification of one successor-loop pass: recorded rings are valid,
the visited set only grows, and every appended queue entry satisfies
the invariant relative to the grown visited set. -/
theorem expand_spec (G : DiGraph) (start : Int) (maxLen : Nat)
    (current : Int) (path : List Int) (hle : path.length ≤ maxLen) :
    ∀ (ss visited : List Int),
      QEntryInv G start visited (current, path) →
      (∀ s ∈ ss, G.hasEdge current s = true) →
      (∀ s ∈ ss, s ∈ G.nodes) →
      (∀ ring ∈ (expandSuccs start maxLen path ss visited).1,
        IsRing G maxLen ring) ∧
      (∀ x ∈ visited, x ∈ (expandSuccs start maxLen path ss visited).2.1) ∧
      (∀ e ∈ (expandSuccs start maxLen path ss visited).2.2,
        QEntryInv G start (expandSuccs start maxLen path ss visited).2.1 e) := by
  intro ss
  induction ss with
  | nil =>
    intro visited hq _ _
    simp [expandSuccs]
  | cons s t ih =>
    intro visited hq hsE hsN
    have hsE' : ∀ x ∈ t, G.hasEdge current x = true :=
      fun x hx => hsE x (List.mem_cons_of_mem s hx)
    have hsN' : ∀ x ∈ t, x ∈ G.nodes :=
      fun x hx => hsN x (List.mem_cons_of_mem s hx)
    simp only [expandSuccs]
    split_ifs with h1 h2
    · obtain ⟨ihr, ihm, ihe⟩ := ih visited hq hsE' hsN'
      dsimp only
      refine ⟨?_, ihm, ihe⟩
      intro ring hring
      rcases List.mem_cons.mp hring with rfl | hring'
      · refine isRing_of_inv G start maxLen current ring visited hq h1.2 hle ?_
        have := hsE s (List.mem_cons_self s t)
        rwa [h1.1] at this
      · exact ihr ring hring'
    · have hq' : QEntryInv G start (visited ++ [s]) (current, path) :=
        hq.mono (fun x hx => List.mem_append_left _ hx)
      obtain ⟨ihr, ihm, ihe⟩ := ih (visited ++ [s]) hq' hsE' hsN'
      dsimp only
      refine ⟨ihr, ?_, ?_⟩
      · intro x hx
        exact ihm x (List.mem_append_left _ hx)
      · intro e he
        rcases List.mem_cons.mp he with rfl | he'
        · have hsnp : s ∉ path := fun hc => h2.1 (hq.sub_vis s hc)
          have hpne : path ≠ [] := by
            intro hc
            have := hq.len2
            rw [hc] at this
            simp at this
          refine ⟨?_, ?_, ?_, ?_, ?_, ?_, ?_⟩
          · rcases hpth : path with _ | ⟨a, t'⟩
            · exact absurd hpth hpne
            · have := hq.head_eq
              rw [hpth] at this
              simpa using this
          · simp [List.getLast?_concat]
          · rw [List.nodup_append]
            refine ⟨hq.nodup, List.nodup_singleton s, ?_⟩
            intro a ha hb
            simp at hb
            rw [hb] at ha
            exact hsnp ha
          · have hl2 : 2 ≤ path.length := hq.len2
            simp only [List.length_append, List.length_singleton]
            omega
          · intro x hx
            rcases List.mem_append.mp hx with h | h
            · exact hq.sub_nodes x h
            · simp at h
              rw [h]
              exact hsN s (List.mem_cons_self s t)
          · intro x hx
            rcases List.mem_append.mp hx with h | h
            · exact ihm x (List.mem_append_left _ (hq.sub_vis x h))
            · simp at h
              rw [h]
              exact ihm s (List.mem_append_right _ (by simp))
          · rw [List.chain'_append]
            refine ⟨hq.chain, List.chain'_singleton s, ?_⟩
            intro x hx y hy
            have hlast : path.getLast? = some current := hq.last_eq
            rw [hlast] at hx
            have hxc : current = x := by simpa using hx
            have hys : s = y := by simpa using hy
            rw [← hxc, ← hys]
            exact hsE s (List.mem_cons_self s t)
        · exact ihe e he'
    · exact ih visited hq hsE' hsN'

theorem ringBFS_spec (G : DiGraph) (start : Int) (maxLen : Nat)
    (hwf : G.WF) :
    ∀ (fuel : Nat) (queue : List (Int × List Int)) (visited : List Int)
      (rings : List (List Int)),
      (∀ e ∈ queue, QEntryInv G start visited e) →
      (∀ r ∈ rings, IsRing G maxLen r) →
      ∀ r ∈ ringBFS G start maxLen fuel queue visited rings,
        IsRing G maxLen r := by
  intro fuel
  induction fuel with
  | zero =>
    intro queue visited rings _ hr r hrr
    exact hr r hrr
  | succ n ih =>
    intro queue visited rings hq hr
    cases queue with
    | nil =>
      intro r hrr
      exact hr r hrr
    | cons hd rest =>
      obtain ⟨current, path⟩ := hd
      simp only [ringBFS]
      split_ifs with hlen
      · exact ih rest visited rings
          (fun e he => hq e (List.mem_cons_of_mem _ he)) hr
      · have hql : QEntryInv G start visited (current, path) :=
          hq (current, path) (List.mem_cons_self _ _)
        have hsE : ∀ s ∈ G.successors current, G.hasEdge current s = true :=
          fun s hs => mem_successors_hasEdge G current s hs
        have hsN : ∀ s ∈ G.successors current, s ∈ G.nodes :=
          fun s hs => mem_successors_node G hwf current s hs
        obtain ⟨hrings, hmono, hentries⟩ :=
          expand_spec G start maxLen current path (le_of_not_lt hlen)
            (G.successors current) visited hql hsE hsN
        apply ih
        · intro e he
          rcases List.mem_append.mp he with h | h
          · exact (hq e (List.mem_cons_of_mem _ h)).mono hmono
          · exact hentries e h
        · intro r hrr
          rcases List.mem_append.mp hrr with h | h
          · exact hr r h
          · exact hrings r h

theorem find_rings_around_node_spec (G : DiGraph) (start : Int)
    (maxLen : Nat) (hwf : G.WF) (hnl : NoSelfLoop G)
    (hstart : start ∈ G.nodes) :
    ∀ r ∈ find_rings_around_node G start maxLen, IsRing G maxLen r := by
  unfold find_rings_around_node
  suffices h : ∀ (ss : List Int) (acc : List (List Int)),
      (∀ s ∈ ss, s ∈ G.successors start) →
      (∀ r ∈ acc, IsRing G maxLen r) →
      ∀ r ∈ ss.foldl (fun acc nb =>
          acc ++ ringBFS G start maxLen (G.edges.length + 2)
            [(nb, [start, nb])] [start, nb] []) acc,
        IsRing G maxLen r by
    exact h (G.successors start) [] (fun _ hs => hs) (by simp)
  intro ss
  induction ss with
  | nil =>
    intro acc _ hacc r hr
    exact hacc r hr
  | cons nb t ih =>
    intro acc hss hacc
    rw [List.foldl_cons]
    apply ih
    · intro s hs
      exact hss s (List.mem_cons_of_mem nb hs)
    · intro r hr
      rcases List.mem_append.mp hr with h | h
      · exact hacc r h
      · have hnb : nb ∈ G.successors start := hss nb (List.mem_cons_self nb t)
        have hseed : QEntryInv G start [start, nb] (nb, [start, nb]) := by
          refine ⟨rfl, rfl, ?_, ?_, ?_, ?_, ?_⟩
          · simp [mem_successors_ne G hnl start nb hnb]
          · simp
          · intro x hx
            rcases List.mem_cons.mp hx with rfl | hx'
            · exact hstart
            · have : x = nb := by simpa using hx'
              rw [this]
              exact mem_successors_node G hwf start nb hnb
          · intro x hx
            exact hx
          · simp [List.chain'_cons]
            exact mem_successors_hasEdge G start nb hnb
        exact ringBFS_spec G start maxLen hwf (G.edges.length + 2)
          [(nb, [start, nb])] [start, nb] []
          (fun e he => by
            have : e = (nb, [start, nb]) := by simpa using he
            rw [this]
            exact hseed)
          (by simp) r h

theorem dedup_step (G : DiGraph) (maxLen : Nat) (r : List Int)
    (rings : List (List Int)) (seen : List (Finset Int))
    (hr : ∀ x ∈ rings, IsRing G maxLen x)
    (hp : rings.Pairwise (fun a b => a.toFinset ≠ b.toFinset))
    (hseen : ∀ x ∈ rings, x.toFinset ∈ seen)
    (hIr : IsRing G maxLen r) (h1 : r.toFinset ∉ seen) :
    (∀ x ∈ rings ++ [r], IsRing G maxLen x) ∧
    (rings ++ [r]).Pairwise (fun a b => a.toFinset ≠ b.toFinset) ∧
    (∀ x ∈ rings ++ [r], x.toFinset ∈ seen ++ [r.toFinset]) := by
  refine ⟨?_, ?_, ?_⟩
  · intro x hx
    rcases List.mem_append.mp hx with h | h
    · exact hr x h
    · have : x = r := by simpa using h
      rw [this]
      exact hIr
  · rw [List.pairwise_append]
    refine ⟨hp, List.pairwise_singleton _ r, ?_⟩
    intro a ha b hb
    have : b = r := by simpa using hb
    rw [this]
    intro hc
    exact h1 (hc ▸ hseen a ha)
  · intro x hx
    rcases List.mem_append.mp hx with h | h
    · exact List.mem_append_left _ (hseen x h)
    · have : x = r := by simpa using h
      rw [this]
      exact List.mem_append_right _ (by simp)

theorem dedupRings_spec (G : DiGraph) (maxLen maxRings : Nat) :
    ∀ (rs rings : List (List Int)) (seen : List (Finset Int)),
      (∀ r ∈ rs, IsRing G maxLen r) →
      (∀ r ∈ rings, IsRing G maxLen r) →
      rings.Pairwise (fun a b => a.toFinset ≠ b.toFinset) →
      (∀ r ∈ rings, r.toFinset ∈ seen) →
      (∀ r ∈ (dedupRings maxRings rs rings seen).1, IsRing G maxLen r) ∧
      (dedupRings maxRings rs rings seen).1.Pairwise
        (fun a b => a.toFinset ≠ b.toFinset) ∧
      (∀ r ∈ (dedupRings maxRings rs rings seen).1,
        r.toFinset ∈ (dedupRings maxRings rs rings seen).2) := by
  intro rs
  induction rs with
  | nil =>
    intro rings seen _ hr hp hseen
    exact ⟨hr, hp, hseen⟩
  | cons r rs' ih =>
    intro rings seen hrs hr hp hseen
    have hrs' : ∀ x ∈ rs', IsRing G maxLen x :=
      fun x hx => hrs x (List.mem_cons_of_mem r hx)
    have hIr : IsRing G maxLen r := hrs r (List.mem_cons_self r rs')
    simp only [dedupRings]
    split_ifs with h1 h2
    · exact ih rings seen hrs' hr hp hseen
    · obtain ⟨a1, a2, a3⟩ := dedup_step G maxLen r rings seen hr hp hseen hIr h1
      exact ⟨a1, a2, a3⟩
    · obtain ⟨a1, a2, a3⟩ := dedup_step G maxLen r rings seen hr hp hseen hIr h1
      exact ih (rings ++ [r]) (seen ++ [r.toFinset]) hrs' a1 a2 a3

theorem findRingsGo_spec (G : DiGraph) (maxLen maxRings : Nat)
    (hwf : G.WF) (hnl : NoSelfLoop G) :
    ∀ (ns : List Int) (rings : List (List Int)) (seen : List (Finset Int)),
      (∀ n ∈ ns, n ∈ G.nodes) →
      (∀ r ∈ rings, IsRing G maxLen r) →
      rings.Pairwise (fun a b => a.toFinset ≠ b.toFinset) →
      (∀ r ∈ rings, r.toFinset ∈ seen) →
      (∀ r ∈ findRingsGo G maxLen maxRings ns rings seen,
        IsRing G maxLen r) ∧
      (findRingsGo G maxLen maxRings ns rings seen).Pairwise
        (fun a b => a.toFinset ≠ b.toFinset) := by
  intro ns
  induction ns with
  | nil =>
    intro rings seen _ hr hp _
    exact ⟨hr, hp⟩
  | cons n t ih =>
    intro rings seen hns hr hp hseen
    simp only [findRingsGo]
    split_ifs with h1
    · exact ⟨hr, hp⟩
    · have hnode : n ∈ G.nodes := hns n (List.mem_cons_self n t)
      obtain ⟨d1, d2, d3⟩ := dedupRings_spec G maxLen maxRings
        (find_rings_around_node G n maxLen) rings seen
        (find_rings_around_node_spec G n maxLen hwf hnl hnode) hr hp hseen
      exact ih _ _ (fun x hx => hns x (List.mem_cons_of_mem n hx)) d1 d2 d3

theorem insertByKeyDesc_mem (key : Int → Nat) (x y : Int) :
    ∀ l : List Int, y ∈ insertByKeyDesc key x l → y = x ∨ y ∈ l := by
  intro l
  induction l with
  | nil =>
    intro h
    simp [insertByKeyDesc] at h
    exact Or.inl h
  | cons a t ih =>
    intro h
    simp only [insertByKeyDesc] at h
    split_ifs at h
    · rcases List.mem_cons.mp h with rfl | h'
      · exact Or.inl rfl
      · exact Or.inr h'
    · rcases List.mem_cons.mp h with rfl | h'
      · exact Or.inr (List.mem_cons_self _ _)
      · rcases ih h' with h'' | h''
        · exact Or.inl h''
        · exact Or.inr (List.mem_cons_of_mem a h'')

theorem nodesByDegreeDesc_mem (G : DiGraph) :
    ∀ n ∈ nodesByDegreeDesc G, n ∈ G.nodes := by
  unfold nodesByDegreeDesc
  suffices h : ∀ l : List Int,
      ∀ n ∈ l.foldr (insertByKeyDesc
        (fun n => G.inDegree n + G.outDegree n)) [], n ∈ l by
    exact h G.nodes
  intro l
  induction l with
  | nil =>
    intro n hn
    simp at hn
  | cons a t ih =>
    intro n hn
    rw [List.foldr_cons] at hn
    rcases insertByKeyDesc_mem _ a n _ hn with rfl | h'
    · exact List.mem_cons_self _ _
    · exact List.mem_cons_of_mem a (ih n h')

/-- C6 counterexample: with a self-loop at node 1, `find_rings` emits
the length-3 ring `[1, 1, 2]` whose nodes are not pairwise distinct. -/
theorem find_rings_c6_counterexample :
    find_rings selfLoopGraph 5 10000 = [[1, 1, 2]] ∧
    ¬ ([1, 1, 2] : List Int).Nodup := by
  exact ⟨by decide, by decide⟩

/-- C6 amended: on a graph without self-loops, every ring returned by
`find_rings` is a list of 3 to `maxLen` pairwise-distinct graph nodes
whose consecutive pairs (wrap-around included) are directed edges, and
no two returned rings share a node set. -/
theorem find_rings_c6 (G : DiGraph) (maxLen maxRings : Nat)
    (hwf : G.WF) (hnl : NoSelfLoop G) :
    (∀ r ∈ find_rings G maxLen maxRings, IsRing G maxLen r) ∧
    (find_rings G maxLen maxRings).Pairwise
      (fun a b => a.toFinset ≠ b.toFinset) := by
  unfold find_rings
  exact findRingsGo_spec G maxLen maxRings hwf hnl (nodesByDegreeDesc G)
    [] [] (nodesByDegreeDesc_mem G) (by simp) (by simp) (by simp)

theorem find_rings_c6_witness :
    overlapGraph.WF ∧ NoSelfLoop overlapGraph ∧
    (∀ r ∈ find_rings overlapGraph 5 10000, IsRing overlapGraph 5 r) ∧
    (find_rings overlapGraph 5 10000).Pairwise
      (fun a b => a.toFinset ≠ b.toFinset) :=
  ⟨by decide, by decide,
   (find_rings_c6 overlapGraph 5 10000 (by decide) (by decide)).1,
   (find_rings_c6 overlapGraph 5 10000 (by decide) (by decide)).2⟩

/-! ## C7 and C8: the graph builder -/

/-- Weight stored for an ordered pair, 0 when the edge is absent. -/
def weightAt (G : DiGraph) (u v : Int) : ℚ :=
  ((G.edgeData u v).map (fun d => d.weight)).getD 0

/-- Count stored for an ordered pair, 0 when the edge is absent. -/
def countAt (G : DiGraph) (u v : Int) : Nat :=
  ((G.edgeData u v).map (fun d => d.count)).getD 0

/-- Stored earliest timestamp for an ordered pair (absent edge ↦ none). -/
def tsAt (G : DiGraph) (u v : Int) : Option ℚ :=
  (G.edgeData u v).bind (fun d => d.timestamp)

/-- Total canonical-unit stake of the records for an ordered pair. -/
def wSum (rs : List VouchRecord) (u v : Int) : ℚ :=
  ((rs.filter (fun r => decide (r.authorProfileId = some u ∧
      r.subjectProfileId = some v))).map (fun r => wei_to_eth r.balance)).sum

/-- Number of records for an ordered pair. -/
def cCount (rs : List VouchRecord) (u v : Int) : Nat :=
  (rs.filter (fun r => decide (r.authorProfileId = some u ∧
      r.subjectProfileId = some v))).length

theorem wei_to_eth_nonneg (w : Nat) : 0 ≤ wei_to_eth w := by
  unfold wei_to_eth
  positivity

theorem setEdge_keys (k : Int × Int) (d : EdgeData) :
    ∀ es : List ((Int × Int) × EdgeData),
      (setEdge es k d).map (fun e => e.1) = es.map (fun e => e.1) := by
  intro es
  induction es with
  | nil => rfl
  | cons e t ih =>
    simp only [setEdge]
    split_ifs with h
    · simp [h]
    · simp [ih]

theorem setEdge_find_same (k : Int × Int) (d : EdgeData) :
    ∀ es : List ((Int × Int) × EdgeData),
      (es.find? (fun e => decide (e.1 = k))).isSome = true →
      (setEdge es k d).find? (fun e => decide (e.1 = k)) = some (k, d) := by
  intro es
  induction es with
  | nil =>
    intro h
    simp [List.find?] at h
  | cons e t ih =>
    intro h
    simp only [setEdge]
    split_ifs with hk
    · simp [List.find?]
    · rw [List.find?_cons_of_neg _ (by simpa using hk)]
      apply ih
      rwa [List.find?_cons_of_neg _ (by simpa using hk)] at h

theorem setEdge_find_other (k k' : Int × Int) (d : EdgeData)
    (hne : k' ≠ k) :
    ∀ es : List ((Int × Int) × EdgeData),
      (setEdge es k d).find? (fun e => decide (e.1 = k'))
        = es.find? (fun e => decide (e.1 = k')) := by
  intro es
  induction es with
  | nil => rfl
  | cons e t ih =>
    simp only [setEdge]
    split_ifs with hk
    · have hkk' : ¬ (k = k') := fun h => hne h.symm
      have hek' : ¬ (e.1 = k') := by
        rw [hk]
        exact hkk'
      simp [List.find?, hkk', hek']
    · by_cases hpe : e.1 = k'
      · simp [List.find?, hpe]
      · simp [List.find?, hpe]
        exact ih

theorem addVouch_existing (TM : TimeModel) (G : DiGraph) (r : VouchRecord)
    (a b : Int) (d0 : EdgeData)
    (ha : r.authorProfileId = some a) (hb : r.subjectProfileId = some b)
    (hd : G.edgeData a b = some d0) :
    ∃ G', addVouch TM G r = Except.ok G' ∧
      G'.edgeData a b = some ⟨d0.weight + wei_to_eth r.balance, d0.count + 1,
        d0.staked, d0.archived,
        updTs (resolveVouchTimestamp TM r) d0.timestamp⟩ ∧
      (∀ u v, (u, v) ≠ (a, b) → G'.edgeData u v = G.edgeData u v) ∧
      G'.edges.map (fun e => e.1) = G.edges.map (fun e => e.1) := by
  have hok : addVouch TM G r = Except.ok
      ⟨G.nodes, setEdge G.edges (a, b)
        ⟨d0.weight + wei_to_eth r.balance, d0.count + 1, d0.staked,
         d0.archived, updTs (resolveVouchTimestamp TM r) d0.timestamp⟩,
       attachUser (attachUser G.attrs a r.authorUser) b r.subjectUser⟩ := by
    simp only [addVouch, ha, hb, hd]
  refine ⟨_, hok, ?_, ?_, ?_⟩
  · unfold DiGraph.edgeData
    have hsome : (G.edges.find? (fun e => decide (e.1 = (a, b)))).isSome
        = true := by
      unfold DiGraph.edgeData at hd
      cases hf : G.edges.find? (fun e => decide (e.1 = (a, b))) with
      | none => rw [hf] at hd; simp at hd
      | some x => simp [hf]
    rw [show (⟨G.nodes, setEdge G.edges (a, b)
        ⟨d0.weight + wei_to_eth r.balance, d0.count + 1, d0.staked,
         d0.archived, updTs (resolveVouchTimestamp TM r) d0.timestamp⟩,
       attachUser (attachUser G.attrs a r.authorUser) b
         r.subjectUser⟩ : DiGraph).edges = setEdge G.edges (a, b)
        ⟨d0.weight + wei_to_eth r.balance, d0.count + 1, d0.staked,
         d0.archived, updTs (resolveVouchTimestamp TM r) d0.timestamp⟩
      from rfl]
    rw [setEdge_find_same (a, b) _ G.edges hsome]
    rfl
  · intro u v hne
    unfold DiGraph.edgeData
    exact congrArg (Option.map (fun e => e.2))
      (setEdge_find_other (a, b) (u, v) _ hne G.edges)
  · exact setEdge_keys (a, b) _ G.edges

theorem addVouch_new (TM : TimeModel) (G : DiGraph) (r : VouchRecord)
    (a b : Int)
    (ha : r.authorProfileId = some a) (hb : r.subjectProfileId = some b)
    (hd : G.edgeData a b = none) :
    ∃ G', addVouch TM G r = Except.ok G' ∧
      G'.edgeData a b = some ⟨wei_to_eth r.balance, 1, r.staked, r.archived,
        resolveVouchTimestamp TM r⟩ ∧
      (∀ u v, (u, v) ≠ (a, b) → G'.edgeData u v = G.edgeData u v) ∧
      G'.edges.map (fun e => e.1)
        = G.edges.map (fun e => e.1) ++ [(a, b)] := by
  have hfind : G.edges.find? (fun e => decide (e.1 = (a, b))) = none := by
    unfold DiGraph.edgeData at hd
    cases hf : G.edges.find? (fun e => decide (e.1 = (a, b))) with
    | none => rfl
    | some x => rw [hf] at hd; simp at hd
  have hok : addVouch TM G r = Except.ok
      ⟨addNode (addNode G.nodes a) b,
       G.edges ++ [((a, b), ⟨wei_to_eth r.balance, 1, r.staked, r.archived,
         resolveVouchTimestamp TM r⟩)],
       attachUser (attachUser G.attrs a r.authorUser) b r.subjectUser⟩ := by
    simp only [addVouch, ha, hb, hd]
  refine ⟨_, hok, ?_, ?_, ?_⟩
  · unfold DiGraph.edgeData
    rw [show (⟨addNode (addNode G.nodes a) b,
       G.edges ++ [((a, b), ⟨wei_to_eth r.balance, 1, r.staked, r.archived,
         resolveVouchTimestamp TM r⟩)],
       attachUser (attachUser G.attrs a r.authorUser) b
         r.subjectUser⟩ : DiGraph).edges = G.edges ++ [((a, b),
           ⟨wei_to_eth r.balance, 1, r.staked, r.archived,
            resolveVouchTimestamp TM r⟩)] from rfl]
    rw [List.find?_append, hfind]
    simp [List.find?]
  · intro u v hne
    unfold DiGraph.edgeData
    rw [show (⟨addNode (addNode G.nodes a) b,
       G.edges ++ [((a, b), ⟨wei_to_eth r.balance, 1, r.staked, r.archived,
         resolveVouchTimestamp TM r⟩)],
       attachUser (attachUser G.attrs a r.authorUser) b
         r.subjectUser⟩ : DiGraph).edges = G.edges ++ [((a, b),
           ⟨wei_to_eth r.balance, 1, r.staked, r.archived,
            resolveVouchTimestamp TM r⟩)] from rfl]
    rw [List.find?_append]
    have hne' : ¬ ((a, b) = (u, v)) := fun hc => hne hc.symm
    have hsingle : List.find? (fun e => decide (e.1 = (u, v)))
        [((a, b), (⟨wei_to_eth r.balance, 1, r.staked, r.archived,
          resolveVouchTimestamp TM r⟩ : EdgeData))] = none := by
      by_cases hau : a = u
      · subst hau
        by_cases hbv : b = v
        · subst hbv
          exact absurd rfl hne'
        · simp [List.find?, hbv]
      · simp [List.find?, hau]
    rw [hsingle]
    cases hf : G.edges.find? (fun e => decide (e.1 = (u, v))) <;> rfl
  · simp

theorem addVouch_error_iff (TM : TimeModel) (G : DiGraph) (r : VouchRecord) :
    addVouch TM G r = Except.error ()
      ↔ (r.authorProfileId = none ∨ r.subjectProfileId = none) := by
  constructor
  · intro h
    cases ha : r.authorProfileId with
    | none => exact Or.inl rfl
    | some a =>
      cases hb : r.subjectProfileId with
      | none => exact Or.inr rfl
      | some b =>
        cases hd : G.edgeData a b with
        | some d0 =>
          obtain ⟨G', hok, _, _, _⟩ := addVouch_existing TM G r a b d0 ha hb hd
          rw [hok] at h
          exact absurd h (by simp)
        | none =>
          obtain ⟨G', hok, _, _, _⟩ := addVouch_new TM G r a b ha hb hd
          rw [hok] at h
          exact absurd h (by simp)
  · intro h
    rcases h with h | h
    · unfold addVouch
      rw [h]
    · unfold addVouch
      rw [h]
      cases hA : r.authorProfileId <;> rfl

theorem addVouch_step_counts (TM : TimeModel) (G G' : DiGraph)
    (r : VouchRecord) (h : addVouch TM G r = Except.ok G') (u v : Int) :
    weightAt G' u v = weightAt G u v +
      (if r.authorProfileId = some u ∧ r.subjectProfileId = some v
        then wei_to_eth r.balance else 0) ∧
    countAt G' u v = countAt G u v +
      (if r.authorProfileId = some u ∧ r.subjectProfileId = some v
        then 1 else 0) := by
  cases ha : r.authorProfileId with
  | none =>
    rw [(addVouch_error_iff TM G r).mpr (Or.inl ha)] at h
    exact absurd h (by simp)
  | some a =>
    cases hb : r.subjectProfileId with
    | none =>
      rw [(addVouch_error_iff TM G r).mpr (Or.inr hb)] at h
      exact absurd h (by simp)
    | some b =>
      by_cases hm : u = a ∧ v = b
      · obtain ⟨rfl, rfl⟩ := hm
        have hcond : some u = some u ∧ some v = some v := ⟨rfl, rfl⟩
        rw [if_pos hcond, if_pos hcond]
        cases hd : G.edgeData u v with
        | some d0 =>
          obtain ⟨G'', hok, hsame, _, _⟩ :=
            addVouch_existing TM G r u v d0 ha hb hd
          rw [hok] at h
          obtain rfl : G'' = G' := by
            simpa using h
          unfold weightAt countAt
          rw [hsame, hd]
          constructor <;> rfl
        | none =>
          obtain ⟨G'', hok, hsame, _, _⟩ := addVouch_new TM G r u v ha hb hd
          rw [hok] at h
          obtain rfl : G'' = G' := by
            simpa using h
          unfold weightAt countAt
          rw [hsame, hd]
          constructor <;> simp
      · have hcond : ¬ (some a = some u ∧ some b = some v) := by
          intro hc
          exact hm ⟨(by simpa using hc.1 : a = u).symm,
            (by simpa using hc.2 : b = v).symm⟩
        rw [if_neg hcond, if_neg hcond]
        have hne : (u, v) ≠ (a, b) := by
          intro hc
          rw [Prod.mk.injEq] at hc
          exact hm ⟨hc.1, hc.2⟩
        cases hd : G.edgeData a b with
        | some d0 =>
          obtain ⟨G'', hok, _, hother, _⟩ :=
            addVouch_existing TM G r a b d0 ha hb hd
          rw [hok] at h
          obtain rfl : G'' = G' := by
            simpa using h
          unfold weightAt countAt
          rw [hother u v hne]
          constructor <;> simp
        | none =>
          obtain ⟨G'', hok, _, hother, _⟩ := addVouch_new TM G r a b ha hb hd
          rw [hok] at h
          obtain rfl : G'' = G' := by
            simpa using h
          unfold weightAt countAt
          rw [hother u v hne]
          constructor <;> simp

theorem addVouch_exists_ok (TM : TimeModel) (G : DiGraph) (r : VouchRecord)
    (a b : Int) (ha : r.authorProfileId = some a)
    (hb : r.subjectProfileId = some b) :
    ∃ G', addVouch TM G r = Except.ok G' := by
  cases hd : G.edgeData a b with
  | some d0 =>
    obtain ⟨G', hok, _, _, _⟩ := addVouch_existing TM G r a b d0 ha hb hd
    exact ⟨G', hok⟩
  | none =>
    obtain ⟨G', hok, _, _, _⟩ := addVouch_new TM G r a b ha hb hd
    exact ⟨G', hok⟩

theorem build_fold_counts (TM : TimeModel) :
    ∀ (rs : List VouchRecord) (G0 G : DiGraph),
      rs.foldlM (addVouch TM) G0 = Except.ok G →
      ∀ u v : Int, weightAt G u v = weightAt G0 u v + wSum rs u v ∧
        countAt G u v = countAt G0 u v + cCount rs u v := by
  intro rs
  induction rs with
  | nil =>
    intro G0 G h u v
    have h2 : G0 = G := by
      simp [List.foldlM, pure, Except.pure] at h
      exact h
    rw [← h2]
    simp [wSum, cCount]
  | cons r rs' ih =>
    intro G0 G h u v
    rw [List.foldlM_cons] at h
    cases hstep : addVouch TM G0 r with
    | error e =>
      rw [hstep] at h
      exact absurd h (by simp [Bind.bind, Except.bind])
    | ok G1 =>
      rw [hstep] at h
      have h' : rs'.foldlM (addVouch TM) G1 = Except.ok G := by
        simpa [Bind.bind, Except.bind] using h
      obtain ⟨hw, hc⟩ := ih G1 G h' u v
      obtain ⟨hw0, hc0⟩ := addVouch_step_counts TM G0 G1 r hstep u v
      have hwsum : wSum (r :: rs') u v =
          (if r.authorProfileId = some u ∧ r.subjectProfileId = some v
            then wei_to_eth r.balance else 0) + wSum rs' u v := by
        unfold wSum
        by_cases hcond : r.authorProfileId = some u ∧
            r.subjectProfileId = some v
        · rw [List.filter_cons, if_pos (by simpa using hcond),
            if_pos hcond]
          simp
        · rw [List.filter_cons, if_neg (by simpa using hcond),
            if_neg hcond]
          simp
      have hccnt : cCount (r :: rs') u v =
          (if r.authorProfileId = some u ∧ r.subjectProfileId = some v
            then 1 else 0) + cCount rs' u v := by
        unfold cCount
        by_cases hcond : r.authorProfileId = some u ∧
            r.subjectProfileId = some v
        · rw [List.filter_cons, if_pos (by simpa using hcond),
            if_pos hcond]
          simp [Nat.add_comm]
        · rw [List.filter_cons, if_neg (by simpa using hcond),
            if_neg hcond]
          simp
      rw [hw, hw0, hwsum, hc, hc0, hccnt]
      constructor
      · ring
      · omega

theorem edgeData_none_not_mem (G : DiGraph) (a b : Int)
    (hd : G.edgeData a b = none) :
    (a, b) ∉ G.edges.map (fun e => e.1) := by
  intro hmem
  obtain ⟨e, he, hk⟩ := List.mem_map.mp hmem
  have hfind : G.edges.find? (fun e => decide (e.1 = (a, b))) = none := by
    unfold DiGraph.edgeData at hd
    cases hf : G.edges.find? (fun e => decide (e.1 = (a, b))) with
    | none => rfl
    | some x => rw [hf] at hd; simp at hd
  rw [List.find?_eq_none] at hfind
  exact absurd (by simp [hk]) (hfind e he)

theorem build_fold_nodup (TM : TimeModel) :
    ∀ (rs : List VouchRecord) (G0 G : DiGraph),
      (G0.edges.map (fun e => e.1)).Nodup →
      rs.foldlM (addVouch TM) G0 = Except.ok G →
      (G.edges.map (fun e => e.1)).Nodup := by
  intro rs
  induction rs with
  | nil =>
    intro G0 G h0 h
    have h2 : G0 = G := by
      simp [List.foldlM, pure, Except.pure] at h
      exact h
    rw [← h2]
    exact h0
  | cons r rs' ih =>
    intro G0 G h0 h
    rw [List.foldlM_cons] at h
    cases hstep : addVouch TM G0 r with
    | error e =>
      rw [hstep] at h
      exact absurd h (by simp [Bind.bind, Except.bind])
    | ok G1 =>
      rw [hstep] at h
      have h' : rs'.foldlM (addVouch TM) G1 = Except.ok G := by
        simpa [Bind.bind, Except.bind] using h
      refine ih G1 G ?_ h'
      cases ha : r.authorProfileId with
      | none =>
        rw [(addVouch_error_iff TM G0 r).mpr (Or.inl ha)] at hstep
        exact absurd hstep (by simp)
      | some a =>
        cases hb : r.subjectProfileId with
        | none =>
          rw [(addVouch_error_iff TM G0 r).mpr (Or.inr hb)] at hstep
          exact absurd hstep (by simp)
        | some b =>
          cases hd : G0.edgeData a b with
          | some d0 =>
            obtain ⟨G'', hok, _, _, hkeys⟩ :=
              addVouch_existing TM G0 r a b d0 ha hb hd
            rw [hok] at hstep
            obtain rfl : G'' = G1 := by
              simpa using hstep
            rw [hkeys]
            exact h0
          | none =>
            obtain ⟨G'', hok, _, _, hkeys⟩ := addVouch_new TM G0 r a b ha hb hd
            rw [hok] at hstep
            obtain rfl : G'' = G1 := by
              simpa using hstep
            rw [hkeys, List.nodup_append]
            refine ⟨h0, List.nodup_singleton _, ?_⟩
            intro x hx hx2
            simp at hx2
            rw [hx2] at hx
            exact edgeData_none_not_mem G0 a b hd hx

theorem build_fold_error (TM : TimeModel) :
    ∀ (rs : List VouchRecord) (G0 : DiGraph),
      rs.foldlM (addVouch TM) G0 = Except.error () ↔
        ∃ r ∈ rs, r.authorProfileId = none ∨ r.subjectProfileId = none := by
  intro rs
  induction rs with
  | nil =>
    intro G0
    constructor
    · intro h
      simp [List.foldlM, pure, Except.pure] at h
    · intro h
      simp at h
  | cons r rs' ih =>
    intro G0
    rw [List.foldlM_cons]
    cases ha : r.authorProfileId with
    | none =>
      rw [(addVouch_error_iff TM G0 r).mpr (Or.inl ha)]
      constructor
      · intro _
        exact ⟨r, List.mem_cons_self r rs', Or.inl ha⟩
      · intro _
        simp [Bind.bind, Except.bind]
    | some a =>
      cases hb : r.subjectProfileId with
      | none =>
        rw [(addVouch_error_iff TM G0 r).mpr (Or.inr hb)]
        constructor
        · intro _
          exact ⟨r, List.mem_cons_self r rs', Or.inr hb⟩
        · intro _
          simp [Bind.bind, Except.bind]
      | some b =>
        obtain ⟨G1, hok⟩ := addVouch_exists_ok TM G0 r a b ha hb
        rw [hok]
        have hbind : (Except.ok G1 >>=
            fun G2 => rs'.foldlM (addVouch TM) G2)
            = rs'.foldlM (addVouch TM) G1 := by
          simp [Bind.bind, Except.bind]
        rw [hbind, ih G1]
        constructor
        · rintro ⟨r', hr', hbad⟩
          exact ⟨r', List.mem_cons_of_mem r hr', hbad⟩
        · rintro ⟨r', hr', hbad⟩
          rcases List.mem_cons.mp hr' with rfl | hr''
          · rcases hbad with hbad | hbad
            · rw [ha] at hbad
              exact absurd hbad (by simp)
            · rw [hb] at hbad
              exact absurd hbad (by simp)
          · exact ⟨r', hr'', hbad⟩

theorem addVouch_ts_preserved (TM : TimeModel) (G : DiGraph)
    (r : VouchRecord) (a b : Int)
    (ha : r.authorProfileId = some a) (hb : r.subjectProfileId = some b)
    (hres : resolveVouchTimestamp TM r = none) :
    ∃ G', addVouch TM G r = Except.ok G' ∧
      ∀ u v, tsAt G' u v = tsAt G u v := by
  cases hd : G.edgeData a b with
  | some d0 =>
    obtain ⟨G', hok, hsame, hother, _⟩ :=
      addVouch_existing TM G r a b d0 ha hb hd
    refine ⟨G', hok, ?_⟩
    intro u v
    by_cases hne : (u, v) = (a, b)
    · rw [Prod.mk.injEq] at hne
      obtain ⟨rfl, rfl⟩ := hne
      unfold tsAt
      rw [hsame, hd, hres]
      rfl
    · unfold tsAt
      rw [hother u v hne]
  | none =>
    obtain ⟨G', hok, hsame, hother, _⟩ := addVouch_new TM G r a b ha hb hd
    refine ⟨G', hok, ?_⟩
    intro u v
    by_cases hne : (u, v) = (a, b)
    · rw [Prod.mk.injEq] at hne
      obtain ⟨rfl, rfl⟩ := hne
      unfold tsAt
      rw [hsame, hd, hres]
      rfl
    · unfold tsAt
      rw [hother u v hne]

/-- C7: the built graph has at most one edge per ordered pair; each
edge's weight is the canonical-unit sum, and its count the number, of
records for its pair; one more record never decreases an existing
edge's weight; and a stored earliest timestamp is replaced only by a
present, strictly earlier one. -/
theorem build_vouch_c7 :
    (∀ (TM : TimeModel) (rs : List VouchRecord) (G : DiGraph),
      build_vouch_graph TM rs = Except.ok G →
      (G.edges.map (fun e => e.1)).Nodup) ∧
    (∀ (TM : TimeModel) (rs : List VouchRecord) (G : DiGraph)
        (u v : Int) (d : EdgeData),
      build_vouch_graph TM rs = Except.ok G → G.edgeData u v = some d →
      d.weight = wSum rs u v ∧ d.count = cCount rs u v) ∧
    (∀ (TM : TimeModel) (G : DiGraph) (r : VouchRecord) (G' : DiGraph)
        (u v : Int) (d : EdgeData),
      addVouch TM G r = Except.ok G' → G.edgeData u v = some d →
      ∃ d', G'.edgeData u v = some d' ∧ d.weight ≤ d'.weight) ∧
    (∀ (TM : TimeModel) (G : DiGraph) (r : VouchRecord) (G' : DiGraph)
        (u v : Int) (d d' : EdgeData) (t : ℚ),
      addVouch TM G r = Except.ok G' → G.edgeData u v = some d →
      G'.edgeData u v = some d' → d.timestamp = some t →
      d'.timestamp = some t ∨ ∃ t', resolveVouchTimestamp TM r = some t' ∧
        d'.timestamp = some t' ∧ t' < t) := by
  refine ⟨?_, ?_, ?_, ?_⟩
  · intro TM rs G h
    exact build_fold_nodup TM rs ⟨[], [], []⟩ G (by simp) h
  · intro TM rs G u v d h hd
    obtain ⟨hw, hc⟩ := build_fold_counts TM rs ⟨[], [], []⟩ G h u v
    have hw0 : weightAt (⟨[], [], []⟩ : DiGraph) u v = 0 := rfl
    have hc0 : countAt (⟨[], [], []⟩ : DiGraph) u v = 0 := rfl
    rw [hw0, zero_add] at hw
    rw [hc0, Nat.zero_add] at hc
    constructor
    · rw [← hw]
      unfold weightAt
      rw [hd]
      rfl
    · rw [← hc]
      unfold countAt
      rw [hd]
      rfl
  · intro TM G r G' u v d h hd
    cases ha : r.authorProfileId with
    | none =>
      rw [(addVouch_error_iff TM G r).mpr (Or.inl ha)] at h
      exact absurd h (by simp)
    | some a =>
      cases hb : r.subjectProfileId with
      | none =>
        rw [(addVouch_error_iff TM G r).mpr (Or.inr hb)] at h
        exact absurd h (by simp)
      | some b =>
        by_cases hne : (u, v) = (a, b)
        · rw [Prod.mk.injEq] at hne
          obtain ⟨rfl, rfl⟩ := hne
          obtain ⟨G'', hok, hsame, _, _⟩ :=
            addVouch_existing TM G r u v d ha hb hd
          rw [hok] at h
          obtain rfl : G'' = G' := by
            simpa using h
          refine ⟨_, hsame, ?_⟩
          have := wei_to_eth_nonneg r.balance
          simp
          linarith
        · cases hd2 : G.edgeData a b with
          | some d0 =>
            obtain ⟨G'', hok, _, hother, _⟩ :=
              addVouch_existing TM G r a b d0 ha hb hd2
            rw [hok] at h
            obtain rfl : G'' = G' := by
              simpa using h
            exact ⟨d, by rw [hother u v hne]; exact hd, le_refl _⟩
          | none =>
            obtain ⟨G'', hok, _, hother, _⟩ :=
              addVouch_new TM G r a b ha hb hd2
            rw [hok] at h
            obtain rfl : G'' = G' := by
              simpa using h
            exact ⟨d, by rw [hother u v hne]; exact hd, le_refl _⟩
  · intro TM G r G' u v d d' t h hd hd' ht
    cases ha : r.authorProfileId with
    | none =>
      rw [(addVouch_error_iff TM G r).mpr (Or.inl ha)] at h
      exact absurd h (by simp)
    | some a =>
      cases hb : r.subjectProfileId with
      | none =>
        rw [(addVouch_error_iff TM G r).mpr (Or.inr hb)] at h
        exact absurd h (by simp)
      | some b =>
        by_cases hne : (u, v) = (a, b)
        · rw [Prod.mk.injEq] at hne
          obtain ⟨rfl, rfl⟩ := hne
          obtain ⟨G'', hok, hsame, _, _⟩ :=
            addVouch_existing TM G r u v d ha hb hd
          rw [hok] at h
          obtain rfl : G'' = G' := by
            simpa using h
          rw [hsame] at hd'
          have hd'' : d'.timestamp
              = updTs (resolveVouchTimestamp TM r) d.timestamp := by
            have := Option.some.inj hd'
            rw [← this]
          rw [ht] at hd''
          cases hres : resolveVouchTimestamp TM r with
          | none =>
            rw [hres] at hd''
            left
            exact hd''
          | some t' =>
            rw [hres] at hd''
            have hd3 : d'.timestamp = if t' < t then some t' else some t :=
              hd''
            by_cases hlt : t' < t
            · rw [if_pos hlt] at hd3
              exact Or.inr ⟨t', rfl, hd3, hlt⟩
            · rw [if_neg hlt] at hd3
              left
              exact hd3
        · cases hd2 : G.edgeData a b with
          | some d0 =>
            obtain ⟨G'', hok, _, hother, _⟩ :=
              addVouch_existing TM G r a b d0 ha hb hd2
            rw [hok] at h
            obtain rfl : G'' = G' := by
              simpa using h
            rw [hother u v hne, hd] at hd'
            left
            rw [← Option.some.inj hd']
            exact ht
          | none =>
            obtain ⟨G'', hok, _, hother, _⟩ :=
              addVouch_new TM G r a b ha hb hd2
            rw [hok] at h
            obtain rfl : G'' = G' := by
              simpa using h
            rw [hother u v hne, hd] at hd'
            left
            rw [← Option.some.inj hd']
            exact ht

/-- C8: the builder fails exactly on a record with a missing giver or
receiver identifier; a record whose timestamp is unresolvable is still
processed and leaves every stored earliest timestamp unchanged. -/
theorem build_errors_c8 :
    (∀ (TM : TimeModel) (rs : List VouchRecord),
      build_vouch_graph TM rs = Except.error () ↔
        ∃ r ∈ rs, r.authorProfileId = none ∨ r.subjectProfileId = none) ∧
    (∀ (TM : TimeModel) (G : DiGraph) (r : VouchRecord) (a b : Int),
      r.authorProfileId = some a → r.subjectProfileId = some b →
      resolveVouchTimestamp TM r = none →
      ∃ G', addVouch TM G r = Except.ok G' ∧
        ∀ u v, tsAt G' u v = tsAt G u v) := by
  constructor
  · intro TM rs
    exact build_fold_error TM rs ⟨[], [], []⟩
  · intro TM G r a b ha hb hres
    exact addVouch_ts_preserved TM G r a b ha hb hres

/-- A well-formed vouch record: 1 vouches for 2 with 0.5 ETH in wei
and no timestamp information. -/
def vouchR1 : VouchRecord :=
  ⟨some 1, some 2, 5 * 10 ^ 17, true, false, TSVal.vNone, TSVal.vNone,
   TSVal.vNone, TSVal.vNone, none, none⟩

/-- The graph built from `[vouchR1]`. -/
def buildGW : DiGraph :=
  ⟨[1, 2],
   [((1, 2), ⟨wei_to_eth (5 * 10 ^ 17), 1, true, false, none⟩)], []⟩

/-- A record for the pair (1, 2) whose checkpoint resolves to epoch
second 50. -/
def vouchR2 : VouchRecord :=
  ⟨some 1, some 2, 0, false, false, TSVal.vNone, TSVal.vNone,
   TSVal.vInt 50, TSVal.vNone, none, none⟩

/-- A one-edge graph whose stored earliest timestamp is 100. -/
def tsG : DiGraph :=
  ⟨[1, 2], [((1, 2), ⟨1, 1, false, false, some 100⟩)], []⟩

/-- `tsG` after processing `vouchR2`: weight grown, count bumped, and
the earlier timestamp 50 installed. -/
def tsG' : DiGraph :=
  ⟨[1, 2],
   [((1, 2), ⟨1 + wei_to_eth 0, 2, false, false,
     updTs (resolveVouchTimestamp trivTM vouchR2) (some 100)⟩)], []⟩

theorem build_vouch_c7_witness :
    (build_vouch_graph trivTM [vouchR1] = Except.ok buildGW) ∧
    (buildGW.edges.map (fun e => e.1)).Nodup ∧
    ((⟨wei_to_eth (5 * 10 ^ 17), 1, true, false, none⟩ : EdgeData).weight
        = wSum [vouchR1] 1 2 ∧
      (⟨wei_to_eth (5 * 10 ^ 17), 1, true, false, none⟩ : EdgeData).count
        = cCount [vouchR1] 1 2) ∧
    (addVouch trivTM tsG vouchR2 = Except.ok tsG') ∧
    (∃ d', tsG'.edgeData 1 2 = some d' ∧
      ((⟨1, 1, false, false, some 100⟩ : EdgeData).weight ≤ d'.weight)) ∧
    ((⟨1 + wei_to_eth 0, 2, false, false,
        updTs (resolveVouchTimestamp trivTM vouchR2)
          (some 100)⟩ : EdgeData).timestamp = some 100 ∨
      ∃ t', resolveVouchTimestamp trivTM vouchR2 = some t' ∧
        (⟨1 + wei_to_eth 0, 2, false, false,
          updTs (resolveVouchTimestamp trivTM vouchR2)
            (some 100)⟩ : EdgeData).timestamp = some t' ∧ t' < 100) :=
  ⟨rfl,
   build_vouch_c7.1 trivTM [vouchR1] buildGW rfl,
   build_vouch_c7.2.1 trivTM [vouchR1] buildGW 1 2 _ rfl rfl,
   rfl,
   build_vouch_c7.2.2.1 trivTM tsG vouchR2 tsG' 1 2
     ⟨1, 1, false, false, some 100⟩ rfl rfl,
   build_vouch_c7.2.2.2 trivTM tsG vouchR2 tsG' 1 2
     ⟨1, 1, false, false, some 100⟩
     ⟨1 + wei_to_eth 0, 2, false, false,
       updTs (resolveVouchTimestamp trivTM vouchR2) (some 100)⟩ 100
     rfl rfl rfl rfl⟩

/-- A record with a missing giver identifier. -/
def badVouch : VouchRecord :=
  ⟨none, some 2, 0, false, false, TSVal.vNone, TSVal.vNone, TSVal.vNone,
   TSVal.vNone, none, none⟩

theorem build_errors_c8_witness :
    (build_vouch_graph trivTM [badVouch] = Except.error ()) ∧
    (vouchR1.authorProfileId = some 1 ∧ vouchR1.subjectProfileId = some 2 ∧
      resolveVouchTimestamp trivTM vouchR1 = none) ∧
    (∃ G', addVouch trivTM tsG vouchR1 = Except.ok G' ∧
      ∀ u v, tsAt G' u v = tsAt tsG u v) :=
  ⟨(build_errors_c8.1 trivTM [badVouch]).mpr
     ⟨badVouch, List.mem_cons_self _ _, Or.inl rfl⟩,
   ⟨rfl, rfl, rfl⟩,
   build_errors_c8.2 trivTM tsG vouchR1 1 2 rfl rfl rfl⟩

/-! ## C4: determinism of the full pipeline -/

/-- Two-node, one-edge graph used to exercise the pipeline end to
end. -/
def twoNodeG : DiGraph := ⟨[1, 2], [((1, 2), midEdge)], []⟩

/-- C4: for a fixed community partition (the deterministic image of a
fixed Louvain seed) and with the wall-clock ring budget out of the
model, two runs of `analyze_all_profiles` on the same graph and record
list produce the same result list — same composite scores in the same
sort order. -/
theorem analyze_deterministic_c4 (TM : TimeModel) (G : DiGraph)
    (vouches : List VouchRecord) (w : Option Weights)
    (communities : List (List Int)) (r1 r2 : List ProfileResult)
    (h1 : r1 = analyze_all_profiles TM G vouches w communities)
    (h2 : r2 = analyze_all_profiles TM G vouches w communities) :
    r1 = r2 ∧ r1.map (fun p => p.composite_score)
      = r2.map (fun p => p.composite_score) := by
  subst h1
  subst h2
  exact ⟨rfl, rfl⟩

theorem analyze_deterministic_c4_witness :
    (([⟨1, 0, 0, 0, 0, 0, 0, "minimal"⟩,
       ⟨2, 0, 0, 0, 0, 0, 0, "minimal"⟩] : List ProfileResult)
      = analyze_all_profiles trivTM twoNodeG [] none []) ∧
    (([⟨1, 0, 0, 0, 0, 0, 0, "minimal"⟩,
       ⟨2, 0, 0, 0, 0, 0, 0, "minimal"⟩] : List ProfileResult)
      = [⟨1, 0, 0, 0, 0, 0, 0, "minimal"⟩,
         ⟨2, 0, 0, 0, 0, 0, 0, "minimal"⟩]) := by
  have heval : analyze_all_profiles trivTM twoNodeG [] none []
      = [⟨1, 0, 0, 0, 0, 0, 0, "minimal"⟩,
         ⟨2, 0, 0, 0, 0, 0, 0, "minimal"⟩] := by
    have hrs : get_ring_stats_rings twoNodeG 5 = [] := by decide
    have h1 : calculate_risk_score trivTM twoNodeG [] 1 [] none (some [])
        (some []) = ⟨0, 0, 0, 0, 0, 0, "minimal"⟩ := by
      simp [calculate_risk_score, is_official_account, usernameOf,
        calculate_ring_score, calculate_cluster_score, calculate_burst_score,
        detect_vouch_burst, get_vouches_for_profile, calculate_stake_score,
        get_incoming_stakes, calculate_reciprocity_score,
        calculate_reciprocity_quot, DiGraph.inDegree, DiGraph.outDegree,
        DiGraph.predecessors, DiGraph.successors, twoNodeG, weightedSum,
        DEFAULT_WEIGHTS, get_risk_level, List.find?]
      norm_num
    have h2 : calculate_risk_score trivTM twoNodeG [] 2 [] none (some [])
        (some []) = ⟨0, 0, 0, 0, 0, 0, "minimal"⟩ := by
      simp [calculate_risk_score, is_official_account, usernameOf,
        calculate_ring_score, calculate_cluster_score, calculate_burst_score,
        detect_vouch_burst, get_vouches_for_profile, calculate_stake_score,
        get_incoming_stakes, calculate_reciprocity_score,
        calculate_reciprocity_quot, DiGraph.inDegree, DiGraph.outDegree,
        DiGraph.predecessors, DiGraph.successors, twoNodeG, weightedSum,
        DEFAULT_WEIGHTS, get_risk_level, List.find?]
      norm_num
    have hr0 : round2 (0 : ℚ) = 0 := by
      unfold round2 roundHalfEven
      norm_num
    simp [analyze_all_profiles, hrs, precompute_cluster_data,
      show twoNodeG.nodes = [1, 2] from rfl, h1, h2, toProfileResult, hr0,
      sortByCompositeDesc, insertByCompositeDesc]
  exact ⟨heval.symm,
    (analyze_deterministic_c4 trivTM twoNodeG [] none [] _ _ heval.symm
      heval.symm).1⟩
